import Mathlib

/-!
Verification of the `ln-resource-mgr` crate (jam-ln repository): a shallow
embedding of the resource-and-reputation manager's core decision logic and of
the general bucket's slot accounting, with theorems checking the
natural-language specification against the code.

Conventions of the embedding:
* Rust `u64`/`u16`/`usize` values are `Nat`; Rust `i64` values are `Int`.
  Saturating operations are modelled exactly as the source performs them
  (clamping at the `i64` bounds).
* Byte strings are `List Nat` with each element in `[0, 256)`.
* `HashMap` is modelled as an association list; iteration order of the model is
  the list order, standing in for the arbitrary iteration order of a Rust
  `HashMap` (the claims below depend only on key sets and counts).
* The random salt drawn by `GeneralBucket::get_candidate_slots` is passed as an
  explicit parameter.
* Rust panics (division by zero, failed `assert!`) are surfaced as dedicated
  error constructors so that they are observable in theorems.
-/

/-! ## Bytes and 32-bit words (for SHA-256) -/

/-- Reduce a natural number to a 32-bit word. -/
def w32 (x : Nat) : Nat := x % 4294967296

/-- Right rotation of a 32-bit word. -/
def rotr32 (n x : Nat) : Nat := w32 ((x >>> n) ||| (x <<< (32 - n)))

/-- Bitwise complement on 32-bit words. -/
def compl32 (x : Nat) : Nat := x ^^^ 4294967295

/-- Big-endian bytes of `x`, exactly `n` bytes (most significant first). -/
def beBytes : Nat → Nat → List Nat
  | 0, _ => []
  | n + 1, x => beBytes n (x / 256) ++ [x % 256]

/-- Big-endian interpretation of a byte list as a natural number. -/
def beNat (bs : List Nat) : Nat := bs.foldl (fun acc b => acc * 256 + b) 0

/-! ## SHA-256 (FIPS 180-4), executable -/

/-- The SHA-256 round constants. -/
def shaK : List Nat :=
  [1116352408, 1899447441, 3049323471, 3921009573,
   961987163, 1508970993, 2453635748, 2870763221,
   3624381080, 310598401, 607225278, 1426881987,
   1925078388, 2162078206, 2614888103, 3248222580,
   3835390401, 4022224774, 264347078, 604807628,
   770255983, 1249150122, 1555081692, 1996064986,
   2554220882, 2821834349, 2952996808, 3210313671,
   3336571891, 3584528711, 113926993, 338241895,
   666307205, 773529912, 1294757372, 1396182291,
   1695183700, 1986661051, 2177026350, 2456956037,
   2730485921, 2820302411, 3259730800, 3345764771,
   3516065817, 3600352804, 4094571909, 275423344,
   430227734, 506948616, 659060556, 883997877,
   958139571, 1322822218, 1537002063, 1747873779,
   1955562222, 2024104815, 2227730452, 2361852424,
   2428436474, 2756734187, 3204031479, 3329325298]

/-- The SHA-256 initial hash state. -/
def shaH0 : List Nat :=
  [0x6a09e667, 0xbb67ae85, 0x3c6ef372, 0xa54ff53a,
   0x510e527f, 0x9b05688c, 0x1f83d9ab, 0x5be0cd19]

/-- Small sigma 0 of the message schedule. -/
def ssig0 (x : Nat) : Nat := rotr32 7 x ^^^ rotr32 18 x ^^^ (x >>> 3)

/-- Small sigma 1 of the message schedule. -/
def ssig1 (x : Nat) : Nat := rotr32 17 x ^^^ rotr32 19 x ^^^ (x >>> 10)

/-- Big sigma 0 of the compression function. -/
def bsig0 (x : Nat) : Nat := rotr32 2 x ^^^ rotr32 13 x ^^^ rotr32 22 x

/-- Big sigma 1 of the compression function. -/
def bsig1 (x : Nat) : Nat := rotr32 6 x ^^^ rotr32 11 x ^^^ rotr32 25 x

/-- Group bytes into big-endian 32-bit words (drops a trailing partial word;
inputs are always whole blocks). -/
def toWordsBE : List Nat → List Nat
  | b0 :: b1 :: b2 :: b3 :: rest => (((b0 * 256 + b1) * 256 + b2) * 256 + b3) :: toWordsBE rest
  | _ => []

/-- Extend a 16-word schedule by `n` further words. -/
def extendW : List Nat → Nat → List Nat
  | ws, 0 => ws
  | ws, n + 1 =>
    let i := ws.length
    let w := w32 (ws.getD (i - 16) 0 + ssig0 (ws.getD (i - 15) 0) +
                  ws.getD (i - 7) 0 + ssig1 (ws.getD (i - 2) 0))
    extendW (ws ++ [w]) n

/-- One SHA-256 round: the state is the list `[a, b, c, d, e, f, g, h]`. -/
def shaRound (st : List Nat) (kw : Nat × Nat) : List Nat :=
  match st with
  | [a, b, c, d, e, f, g, h] =>
    let ch := (e &&& f) ^^^ (compl32 e &&& g)
    let t1 := w32 (h + bsig1 e + ch + kw.1 + kw.2)
    let maj := (a &&& b) ^^^ (a &&& c) ^^^ (b &&& c)
    let t2 := w32 (bsig0 a + maj)
    [w32 (t1 + t2), a, b, c, w32 (d + t1), e, f, g]
  | other => other

/-- Compress a single 64-byte block into the hash state. -/
def compressBlock (h : List Nat) (block : List Nat) : List Nat :=
  let ws := extendW (toWordsBE block) 48
  let st := (shaK.zip ws).foldl shaRound h
  (h.zip st).map (fun p => w32 (p.1 + p.2))

/-- SHA-256 padding: append `0x80`, zeros, and the 64-bit big-endian bit length. -/
def padMsg (m : List Nat) : List Nat :=
  m ++ [0x80] ++ List.replicate ((120 - (m.length + 1) % 64) % 64) 0 ++
    beBytes 8 (m.length * 8)

/-- Split a byte list into 64-byte blocks (fuel-driven structural recursion). -/
def toBlocks : Nat → List Nat → List (List Nat)
  | 0, _ => []
  | _, [] => []
  | fuel + 1, l => l.take 64 :: toBlocks fuel (l.drop 64)

/-- The SHA-256 digest of a byte string, as 32 bytes. -/
def sha256 (m : List Nat) : List Nat :=
  let padded := padMsg m
  (((toBlocks padded.length padded).foldl compressBlock shaH0).map (beBytes 4)).flatten

/-- Double SHA-256, as used by the slot-derivation of the general bucket. -/
def sha256d (m : List Nat) : List Nat := sha256 (sha256 m)

/-! ## Data model of `ln-resource-mgr/src/lib.rs` -/

/-- The minimum liquidity limit for congestion-bucket htlcs
(`MINIMUM_CONGESTION_SLOT_LIQUDITY` in the source, 15_000_000 msat). -/
def MINIMUM_CONGESTION_SLOT_LIQUDITY : Nat := 15000000

/-- The smallest `i64` value. -/
def i64Min : Int := -9223372036854775808

/-- The largest `i64` value. -/
def i64Max : Int := 9223372036854775807

/-- Rust `i64::saturating_sub`: the mathematical difference clamped to the
`i64` range. -/
def i64SaturatingSub (a b : Int) : Int := max i64Min (min i64Max (a - b))

/-- Rust `i64::try_from(u).unwrap_or(i64::MAX)` on a `u64` value. -/
def u64AsI64Sat (u : Nat) : Int := min (Int.ofNat u) i64Max

/-- The endorsement signal carried on a htlc's `update_add` message. -/
inductive EndorsementSignal
  | Unendorsed
  | Endorsed
deriving DecidableEq, Repr

/-- The reasons a htlc may be failed back. -/
inductive FailureReason
  | NoResources
  | NoReputation
  | UpgradableSignalModified
deriving DecidableEq, Repr

/-- The recommendation made for a proposed forward. -/
inductive ForwardingOutcome
  | Forward (e : EndorsementSignal)
  | Fail (r : FailureReason)
deriving DecidableEq, Repr

/-- The resource buckets htlcs can be assigned to. -/
inductive ResourceBucketType
  | Protected
  | Congestion
  | General
deriving DecidableEq, Repr

/-- A snapshot of a reputation check for a htlc forward (`ReputationValues`).
The `i64` fields are `Int`, the `u64` fields are `Nat`. -/
structure ReputationValues where
  reputation : Int
  revenue_threshold : Int
  in_flight_total_risk : Nat
  htlc_risk : Nat
deriving DecidableEq, Repr

/-- Returns whether the channel has sufficient reputation for this htlc,
exactly as the source computes it: two saturating subtractions of the risks
(each `u64` risk clamped into `i64` first), compared strictly against the
revenue threshold. -/
def ReputationValues.sufficient_reputation (v : ReputationValues) : Bool :=
  decide (i64SaturatingSub (i64SaturatingSub v.reputation
      (u64AsI64Sat v.in_flight_total_risk)) (u64AsI64Sat v.htlc_risk)
    > v.revenue_threshold)

/-- The incoming and outgoing reputation values for a channel pair. -/
structure ReputationCheck where
  incoming_reputation : ReputationValues
  outgoing_reputation : ReputationValues
deriving DecidableEq, Repr

/-- The resources currently used in a bucket (`BucketResources`). -/
structure BucketResources where
  slots_used : Nat
  slots_available : Nat
  liquidity_used_msat : Nat
  liquidity_available_msat : Nat
deriving DecidableEq, Repr

/-- Whether the bucket can accommodate one more htlc of the given amount. -/
def BucketResources.resources_available (b : BucketResources) (htlc_amt_msat : Nat) : Bool :=
  if b.liquidity_used_msat + htlc_amt_msat > b.liquidity_available_msat then false
  else if b.slots_used + 1 > b.slots_available then false
  else true

/-- The general and congestion bucket resources for a forward (`ResourceCheck`). -/
structure ResourceCheck where
  general_bucket : BucketResources
  congestion_bucket : BucketResources
deriving DecidableEq, Repr

/-- A snapshot of reputation and resources for a forward (`AllocationCheck`). -/
structure AllocationCheck where
  reputation_check : ReputationCheck
  congestion_eligible : Bool
  resource_check : ResourceCheck
deriving DecidableEq, Repr

/-- Modelled from the spec: the `Reputation` scheme enum is declared in
`forward_manager.rs`, which is not among the sources; §4.5 of the spec gives
its three variants `Incoming`, `Outgoing` and `Bidirectional`. -/
inductive Reputation
  | Incoming
  | Outgoing
  | Bidirectional
deriving DecidableEq, Repr

/-- Modelled from the spec: `Reputation::sufficient_reputation` is implemented
in `forward_manager.rs`, which is not among the sources. Per §4.5 of the spec,
`Incoming` applies the per-side predicate to the incoming side, `Outgoing` to
the outgoing side, and `Bidirectional` requires both sides to satisfy it. -/
def Reputation.sufficient_reputation (r : Reputation) (check : AllocationCheck) : Bool :=
  match r with
  | .Incoming => check.reputation_check.incoming_reputation.sufficient_reputation
  | .Outgoing => check.reputation_check.outgoing_reputation.sufficient_reputation
  | .Bidirectional =>
      check.reputation_check.incoming_reputation.sufficient_reputation &&
      check.reputation_check.outgoing_reputation.sufficient_reputation

/-- Whether the congestion bucket may be used for the htlc: it must not be
disabled, the general bucket must be full, the channel must be eligible, the
congestion bucket must have room, and the amount must fit the per-slot
liquidity limit (with a floor of `MINIMUM_CONGESTION_SLOT_LIQUDITY`). -/
def AllocationCheck.congestion_resources_available (c : AllocationCheck)
    (htlc_amt_msat : Nat) : Bool :=
  if c.resource_check.congestion_bucket.slots_available = 0 ||
      c.resource_check.congestion_bucket.liquidity_available_msat = 0 then
    false
  else if c.resource_check.general_bucket.resources_available htlc_amt_msat ||
      !c.congestion_eligible ||
      !c.resource_check.congestion_bucket.resources_available htlc_amt_msat then
    false
  else
    let liquidity_limit :=
      max (c.resource_check.congestion_bucket.liquidity_available_msat /
           c.resource_check.congestion_bucket.slots_available)
        MINIMUM_CONGESTION_SLOT_LIQUDITY
    decide (htlc_amt_msat ≤ liquidity_limit)

/-- The bucket assignment or failure reason for a htlc
(`AllocationCheck::inner_forwarding_outcome`). -/
def AllocationCheck.inner_forwarding_outcome (c : AllocationCheck)
    (htlc_amt_msat : Nat) (incoming_endorsed : EndorsementSignal)
    (incoming_upgradable : Bool) (reputation_check : Reputation) :
    Except FailureReason ResourceBucketType :=
  if !incoming_upgradable && incoming_endorsed = EndorsementSignal.Endorsed then
    .error .UpgradableSignalModified
  else
    match incoming_endorsed with
    | .Endorsed =>
      if reputation_check.sufficient_reputation c then
        .ok .Protected
      else if c.congestion_resources_available htlc_amt_msat then
        .ok .Congestion
      else
        match reputation_check with
        | .Incoming =>
          if c.resource_check.general_bucket.resources_available htlc_amt_msat then
            .ok .General
          else
            .error .NoResources
        | _ => .error .NoReputation
    | .Unendorsed =>
      if reputation_check.sufficient_reputation c && incoming_upgradable then
        .ok .Protected
      else if c.resource_check.general_bucket.resources_available htlc_amt_msat then
        .ok .General
      else
        .error .NoResources

/-- The recommended action for the htlc forward
(`AllocationCheck::forwarding_outcome`). -/
def AllocationCheck.forwarding_outcome (c : AllocationCheck)
    (htlc_amt_msat : Nat) (incoming_endorsed : EndorsementSignal)
    (incoming_upgradable : Bool) (reputation_check : Reputation) :
    ForwardingOutcome :=
  match c.inner_forwarding_outcome htlc_amt_msat incoming_endorsed
      incoming_upgradable reputation_check with
  | .ok .General => .Forward .Unendorsed
  | .ok .Congestion => .Forward .Unendorsed
  | .ok .Protected => .Forward .Endorsed
  | .error fail_reason => .Fail fail_reason

/-! ## Association lists standing in for `HashMap` -/

/-- Look up the first value bound to `k`. -/
def alookup {β : Type} : Nat → List (Nat × β) → Option β
  | _, [] => none
  | k, (k', v) :: t => if k' = k then some v else alookup k t

/-- Replace the value bound to `k` (no change when `k` is absent), as a Rust
`HashMap::get_mut` write does. -/
def aset {β : Type} (k : Nat) (v : β) : List (Nat × β) → List (Nat × β)
  | [] => []
  | (k', v') :: t => if k' = k then (k', v) :: t else (k', v') :: aset k v t

/-- Remove the binding of `k`, as `HashMap::remove` does. -/
def aerase {β : Type} (k : Nat) : List (Nat × β) → List (Nat × β)
  | [] => []
  | (k', v') :: t => if k' = k then t else (k', v') :: aerase k t

/-! ## Data model of `ln-resource-mgr/src/incoming_channel.rs` -/

/-- The errors of the library that the general bucket can produce. String
payloads of the source are dropped; the two Rust panic sites (division by
zero in `GeneralBucket::new` and in the slot-index reduction, and the
`assert!` calls of `add_htlc`/`remove_htlc`) are surfaced as the dedicated
constructors `divByZero` and `assertViolated` so that they are observable. -/
inductive ReputationError
  | ErrUnrecoverable
  | ErrChannelNotFound (scid : Nat)
  | ErrBucketTooEmpty (amt : Nat)
  | divByZero
  | assertViolated
deriving DecidableEq, Repr

/-- Decidable equality for `Except` results, used to evaluate concrete runs. -/
instance {e a : Type} [DecidableEq e] [DecidableEq a] :
    DecidableEq (Except e a) := fun x y =>
  match x, y with
  | .error u, .error v =>
    if h : u = v then .isTrue (by rw [h])
    else .isFalse (fun hh => by injection hh with h2; exact h h2)
  | .ok u, .ok v =>
    if h : u = v then .isTrue (by rw [h])
    else .isFalse (fun hh => by injection hh with h2; exact h h2)
  | .error _, .ok _ => .isFalse (fun hh => Except.noConfusion hh)
  | .ok _, .error _ => .isFalse (fun hh => Except.noConfusion hh)

/-- The size of a resource bucket (`BucketParameters`). -/
structure BucketParameters where
  slot_count : Nat
  liquidity_msat : Nat
deriving DecidableEq, Repr

/-- The number of slots each candidate channel is allowed in the general
bucket (`ASSIGNED_SLOTS`). -/
def ASSIGNED_SLOTS : Nat := 5

/-- The general bucket of an incoming channel (`GeneralBucket`). `htlc_slots`
is the global occupancy vector; `candidate_slots` maps a candidate SCID to the
map from its assigned slot indices to their usage state. -/
structure GeneralBucket where
  params : BucketParameters
  scid : Nat
  htlc_slots : List Bool
  slot_size_msat : Nat
  candidate_slots : List (Nat × List (Nat × Bool))
deriving DecidableEq, Repr

/-- Creates a new general bucket (`GeneralBucket::new`). The source divides
`liquidity_msat / slot_count` with no zero check: Rust division by zero
panics, surfaced here as the `divByZero` error. -/
def GeneralBucket.new (scid : Nat) (params : BucketParameters) :
    Except ReputationError GeneralBucket :=
  if params.slot_count = 0 then .error .divByZero
  else
    let slot_size_msat := params.liquidity_msat / params.slot_count
    if slot_size_msat = 0 then .error .ErrUnrecoverable
    else .ok
      { params := params
        scid := scid
        htlc_slots := List.replicate params.slot_count false
        slot_size_msat := slot_size_msat
        candidate_slots := [] }

/-- Removes a candidate channel from internal state, returning whether
anything was removed (`GeneralBucket::remove_channel`). -/
def GeneralBucket.remove_channel (b : GeneralBucket) (candidate_scid : Nat) :
    Bool × GeneralBucket :=
  ((alookup candidate_scid b.candidate_slots).isSome,
    { b with candidate_slots := aerase candidate_scid b.candidate_slots })

/-- Derives the candidate slot index for one attempt: double SHA-256 of
`salt ‖ own_scid_be ‖ candidate_scid_be ‖ attempt_u8`, first 8 bytes big-endian
as a `u64`, reduced modulo the slot vector length. -/
def deriveIdx (salt : List Nat) (own_scid candidate_scid attempt len : Nat) : Nat :=
  beNat ((sha256d (salt ++ beBytes 8 own_scid ++ beBytes 8 candidate_scid ++
    [attempt % 256])).take 8) % len

/-- The attempt loop of `GeneralBucket::get_candidate_slots`: up to `fuel`
further attempts, stopping once `ASSIGNED_SLOTS` distinct indices are held.
Each new index is inserted with usage state `false`. The `usize → u16`
conversion of the source cannot fail because the length is a `u16`
`slot_count`, so it is not modelled. -/
def assignGo (salt : List Nat) (own_scid candidate_scid len : Nat) :
    Nat → Nat → List (Nat × Bool) → List (Nat × Bool)
  | 0, _, acc => acc
  | fuel + 1, attempt, acc =>
    if acc.length = ASSIGNED_SLOTS then acc
    else
      let idx := deriveIdx salt own_scid candidate_scid attempt len
      let acc' := if (alookup idx acc).isSome then acc else acc ++ [(idx, false)]
      assignGo salt own_scid candidate_scid len fuel (attempt + 1) acc'

/-- Produces the slot set a candidate channel may use
(`GeneralBucket::get_candidate_slots`), memoising it on first use. The salt the
source draws from its rng is the explicit `salt` parameter. The reduction
`hash_num % htlc_slots.len()` panics in Rust when the bucket has no slots,
surfaced as `divByZero`. -/
def GeneralBucket.get_candidate_slots (b : GeneralBucket) (salt : List Nat)
    (candidate_scid : Nat) : Except ReputationError (List Nat × GeneralBucket) :=
  if candidate_scid = b.scid then .error .ErrUnrecoverable
  else
    match alookup candidate_scid b.candidate_slots with
    | some entry => .ok (entry.map (fun p => p.1), b)
    | none =>
      if b.htlc_slots.length = 0 then .error .divByZero
      else
        let result := assignGo salt b.scid candidate_scid b.htlc_slots.length
          (ASSIGNED_SLOTS * 2) 0 []
        if result.length < ASSIGNED_SLOTS then .error .ErrUnrecoverable
        else .ok (result.map (fun p => p.1),
          { b with candidate_slots := b.candidate_slots ++ [(candidate_scid, result)] })

/-- The number of liquidity slots a htlc requires
(`GeneralBucket::required_slot_count`): `max(1, amount.div_ceil(slot_size))`.
The bucket invariant keeps `slot_size_msat` positive, so the ceiling division
is expressed as `(amount + slot_size - 1) / slot_size`. -/
def GeneralBucket.required_slot_count (b : GeneralBucket) (amount_msat : Nat) : Nat :=
  max 1 ((amount_msat + b.slot_size_msat - 1) / b.slot_size_msat)

/-- Returns the slots that can hold the payment amount, or `none` when there
is no room (`GeneralBucket::get_usable_slots`). The returned state may have a
freshly memoised slot assignment for the candidate. The source indexes
`htlc_slots[index]`; the assigned indices are kept in range by the bucket
invariant, and out-of-range reads default to `false` here. -/
def GeneralBucket.get_usable_slots (b : GeneralBucket) (salt : List Nat)
    (candidate_scid amount_msat : Nat) :
    Except ReputationError (Option (List Nat) × GeneralBucket) :=
  let required := b.required_slot_count amount_msat
  match b.get_candidate_slots salt candidate_scid with
  | .error e => .error e
  | .ok (slots, b') =>
    let available := slots.filter (fun i => !(b'.htlc_slots.getD i false))
    if available.length < required then .ok (none, b')
    else .ok (some (available.take required), b')

/-- Checks whether there is space in the bucket for the htlc
(`GeneralBucket::may_add_htlc`). -/
def GeneralBucket.may_add_htlc (b : GeneralBucket) (salt : List Nat)
    (candidate_scid amount_msat : Nat) :
    Except ReputationError (Bool × GeneralBucket) :=
  match b.get_usable_slots salt candidate_scid amount_msat with
  | .error e => .error e
  | .ok (o, b') => .ok (o.isSome, b')

/-- The reservation loop of `GeneralBucket::add_htlc`: for each slot index,
assert the global bit is clear, set it, assert the candidate's bit is clear,
set it. A failed `assert!` is the `assertViolated` error. -/
def reserveSlots : List Nat → List Bool → List (Nat × Bool) →
    Except ReputationError (List Bool × List (Nat × Bool))
  | [], hs, cs => .ok (hs, cs)
  | i :: rest, hs, cs =>
    if hs.getD i false then .error .assertViolated
    else
      match alookup i cs with
      | none => .error (.ErrBucketTooEmpty 1)
      | some v =>
        if v then .error .assertViolated
        else reserveSlots rest (hs.set i true) (aset i true cs)

/-- Adds a htlc to the bucket, returning whether it was admitted
(`GeneralBucket::add_htlc`). -/
def GeneralBucket.add_htlc (b : GeneralBucket) (salt : List Nat)
    (candidate_scid amount_msat : Nat) :
    Except ReputationError (Bool × GeneralBucket) :=
  match b.get_usable_slots salt candidate_scid amount_msat with
  | .error e => .error e
  | .ok (none, b') => .ok (false, b')
  | .ok (some available_slots, b') =>
    match alookup candidate_scid b'.candidate_slots with
    | none => .error (.ErrChannelNotFound candidate_scid)
    | some channel_slots =>
      match reserveSlots available_slots b'.htlc_slots channel_slots with
      | .error e => .error e
      | .ok (hs, cs) => .ok (true,
        { b' with
          htlc_slots := hs
          candidate_slots := aset candidate_scid cs b'.candidate_slots })

/-- The freeing loop of `GeneralBucket::remove_htlc`: for each slot index,
assert the global bit is set, clear it, assert the candidate's bit is set,
clear it. -/
def freeSlots : List Nat → List Bool → List (Nat × Bool) →
    Except ReputationError (List Bool × List (Nat × Bool))
  | [], hs, cs => .ok (hs, cs)
  | i :: rest, hs, cs =>
    if !(hs.getD i false) then .error .assertViolated
    else
      match alookup i cs with
      | none => .error (.ErrBucketTooEmpty 0)
      | some v =>
        if !v then .error .assertViolated
        else freeSlots rest (hs.set i false) (aset i false cs)

/-- Removes a resolved htlc from the bucket (`GeneralBucket::remove_htlc`). -/
def GeneralBucket.remove_htlc (b : GeneralBucket) (candidate_scid amount_msat : Nat) :
    Except ReputationError GeneralBucket :=
  let required := b.required_slot_count amount_msat
  match alookup candidate_scid b.candidate_slots with
  | none => .error (.ErrChannelNotFound candidate_scid)
  | some channel_slots =>
    let occupied := (channel_slots.filter (fun p => p.2)).map (fun p => p.1)
    if occupied.length < required then .error (.ErrBucketTooEmpty amount_msat)
    else
      match freeSlots (occupied.take required) b.htlc_slots channel_slots with
      | .error e => .error e
      | .ok (hs, cs) => .ok
        { b with
          htlc_slots := hs
          candidate_slots := aset candidate_scid cs b.candidate_slots }

/-- An incoming channel's three buckets (`IncomingChannel`). -/
structure IncomingChannel where
  general_bucket : GeneralBucket
  congestion_bucket : BucketParameters
  protected_bucket : BucketParameters
deriving DecidableEq, Repr

/-- Creates an incoming channel (`IncomingChannel::new`). -/
def IncomingChannel.new (scid : Nat)
    (general_bucket congestion_bucket protected_bucket : BucketParameters) :
    Except ReputationError IncomingChannel :=
  match GeneralBucket.new scid general_bucket with
  | .error e => .error e
  | .ok gb => .ok
    { general_bucket := gb
      congestion_bucket := congestion_bucket
      protected_bucket := protected_bucket }

/-- Zeroes the general bucket's parameters
(`IncomingChannel::general_jam_channel`). -/
def IncomingChannel.general_jam_channel (ic : IncomingChannel) : IncomingChannel :=
  { ic with general_bucket :=
      { ic.general_bucket with params := { slot_count := 0, liquidity_msat := 0 } } }

/-! ## The general bucket invariant -/

/-- The inductive invariant of a general bucket: at least one slot exists, the
bucket never assigns slots to itself, map keys are unique, each candidate's
slot indices are unique and in range, a global slot bit is set exactly when
some candidate holds that slot, and at most one candidate holds any slot. -/
structure BucketWF (b : GeneralBucket) : Prop where
  pos : 0 < b.htlc_slots.length
  not_self : alookup b.scid b.candidate_slots = none
  keys_nodup : (b.candidate_slots.map Prod.fst).Nodup
  slot_nodup : ∀ c m, alookup c b.candidate_slots = some m → (m.map Prod.fst).Nodup
  slot_lt : ∀ c m, alookup c b.candidate_slots = some m → ∀ p ∈ m, p.1 < b.htlc_slots.length
  consistent : ∀ i, b.htlc_slots.getD i false = true ↔
      ∃ c m, alookup c b.candidate_slots = some m ∧ alookup i m = some true
  unique : ∀ i c₁ m₁ c₂ m₂, alookup c₁ b.candidate_slots = some m₁ →
      alookup c₂ b.candidate_slots = some m₂ →
      alookup i m₁ = some true → alookup i m₂ = some true → c₁ = c₂

/-! ## Reachable bucket states -/

/-- States of a general bucket reachable from creation through successful
`add_htlc` and `remove_htlc` calls, with arbitrary candidates, amounts, salts
and interleavings. -/
inductive Reachable : GeneralBucket → Prop
  | base (scid : Nat) (params : BucketParameters) (b : GeneralBucket) :
      GeneralBucket.new scid params = .ok b → Reachable b
  | add (b b' : GeneralBucket) (salt : List Nat) (c amt : Nat) (flag : Bool) :
      Reachable b → b.add_htlc salt c amt = .ok (flag, b') → Reachable b'
  | remove (b b' : GeneralBucket) (c amt : Nat) :
      Reachable b → b.remove_htlc c amt = .ok b' → Reachable b'

/-- A 32-byte all-zero salt used for concrete runs. -/
def salt0 : List Nat := List.replicate 32 0

/-- The bucket of scenario S1: scid 123, 100 slots, 1_000_000 msat. -/
def bucketS1 : GeneralBucket :=
  { params := { slot_count := 100, liquidity_msat := 1000000 }
    scid := 123
    htlc_slots := List.replicate 100 false
    slot_size_msat := 10000
    candidate_slots := [] }

/-- A bucket with two candidates, one holding slot 1, used as the C9 witness. -/
def bucketC9 : GeneralBucket :=
  { params := { slot_count := 100, liquidity_msat := 1000000 }
    scid := 123
    htlc_slots := (List.replicate 100 false).set 1 true
    slot_size_msat := 10000
    candidate_slots := [(5, [(1, true)]), (7, [(2, false)])] }

/-- Runs a sequence of `add_htlc` calls for one candidate, collecting the
admission results. -/
def addSeq (salt : List Nat) (c : Nat) :
    List Nat → GeneralBucket → Except ReputationError (List Bool × GeneralBucket)
  | [], b => .ok ([], b)
  | amt :: rest, b =>
    match b.add_htlc salt c amt with
    | .error e => .error e
    | .ok (flag, b') =>
      match addSeq salt c rest b' with
      | .error e => .error e
      | .ok (flags, b'') => .ok (flag :: flags, b'')

/-- Runs a sequence of `remove_htlc` calls for one candidate. -/
def removeSeq (c : Nat) :
    List Nat → GeneralBucket → Except ReputationError GeneralBucket
  | [], b => .ok b
  | amt :: rest, b =>
    match b.remove_htlc c amt with
    | .error e => .error e
    | .ok b' => removeSeq c rest b'

/-- Whether an `Except` result is a success. -/
def exceptIsOk {e a : Type} : Except e a → Bool
  | .ok _ => true
  | .error _ => false

/-- The S1 bucket after one 1-msat htlc from candidate 456 (salt all-zero):
slot 8 is reserved. -/
def bucketC7 : GeneralBucket :=
  { params := { slot_count := 100, liquidity_msat := 1000000 }
    scid := 123
    htlc_slots := (List.replicate 100 false).set 8 true
    slot_size_msat := 10000
    candidate_slots :=
      [(456, [(8, true), (62, false), (78, false), (99, false), (15, false)])] }

/-- The S1 bucket after candidate 456's slot set has been memoised with the
all-zero salt. -/
def bucketC6 : GeneralBucket :=
  { params := { slot_count := 100, liquidity_msat := 1000000 }
    scid := 123
    htlc_slots := List.replicate 100 false
    slot_size_msat := 10000
    candidate_slots :=
      [(456, [(8, false), (62, false), (78, false), (99, false),
        (15, false)])] }

/-- The incoming channel used to refute C8 as stated. -/
def icC8 : IncomingChannel :=
  { general_bucket := bucketS1
    congestion_bucket := { slot_count := 20, liquidity_msat := 2000000 }
    protected_bucket := { slot_count := 30, liquidity_msat := 3000000 } }

/-- Validation of the SHA-256 embedding against the FIPS test vector for "abc". -/
theorem sha256_vector_abc :
    sha256 [0x61, 0x62, 0x63] =
      [0xba, 0x78, 0x16, 0xbf, 0x8f, 0x01, 0xcf, 0xea, 0x41, 0x41, 0x40, 0xde,
       0x5d, 0xae, 0x22, 0x23, 0xb0, 0x03, 0x61, 0xa3, 0x96, 0x17, 0x7a, 0x9c,
       0xb4, 0x10, 0xff, 0x61, 0xf2, 0x00, 0x15, 0xad] := by decide

/-- Validation of the SHA-256 embedding on the empty message. -/
theorem sha256_vector_empty :
    sha256 [] =
      [0xe3, 0xb0, 0xc4, 0x42, 0x98, 0xfc, 0x1c, 0x14, 0x9a, 0xfb, 0xf4, 0xc8,
       0x99, 0x6f, 0xb9, 0x24, 0x27, 0xae, 0x41, 0xe4, 0x64, 0x9b, 0x93, 0x4c,
       0xa4, 0x95, 0x99, 0x1b, 0x78, 0x52, 0xb8, 0x55] := by decide

/-! ## Lemmas about the association-list operations -/

theorem alookup_isSome_iff {β : Type} (k : Nat) (l : List (Nat × β)) :
    (alookup k l).isSome ↔ k ∈ l.map Prod.fst := by
  induction l with
  | nil => simp [alookup]
  | cons p t ih =>
    obtain ⟨k', v⟩ := p
    by_cases h : k' = k
    · subst h; simp [alookup]
    · simp [alookup, h, ih, Ne.symm h]

theorem alookup_eq_none_iff {β : Type} (k : Nat) (l : List (Nat × β)) :
    alookup k l = none ↔ k ∉ l.map Prod.fst := by
  rw [← alookup_isSome_iff]
  cases alookup k l <;> simp

theorem alookup_mem {β : Type} {k : Nat} {v : β} {l : List (Nat × β)}
    (h : alookup k l = some v) : (k, v) ∈ l := by
  induction l with
  | nil => simp [alookup] at h
  | cons p t ih =>
    obtain ⟨k', v'⟩ := p
    by_cases hk : k' = k
    · subst hk
      simp [alookup] at h
      simp [h]
    · simp [alookup, hk] at h
      exact List.mem_cons_of_mem _ (ih h)

theorem mem_alookup_of_nodup {β : Type} {k : Nat} {v : β} {l : List (Nat × β)}
    (nd : (l.map Prod.fst).Nodup) (h : (k, v) ∈ l) : alookup k l = some v := by
  induction l with
  | nil => simp at h
  | cons p t ih =>
    obtain ⟨k', v'⟩ := p
    rw [List.map_cons, List.nodup_cons] at nd
    rcases List.mem_cons.mp h with heq | hmem
    · injection heq with h1 h2
      subst h1
      subst h2
      simp [alookup]
    · have hk : k' ≠ k := by
        intro hkk
        subst hkk
        exact nd.1 (List.mem_map.mpr ⟨(k', v), hmem, rfl⟩)
      simp [alookup, hk]
      exact ih nd.2 hmem

theorem alookup_aset_present {β : Type} {k : Nat} {v w : β} {l : List (Nat × β)}
    (h : alookup k l = some w) : alookup k (aset k v l) = some v := by
  induction l with
  | nil => simp [alookup] at h
  | cons p t ih =>
    obtain ⟨k', v'⟩ := p
    by_cases hk : k' = k
    · subst hk; simp [alookup, aset]
    · simp [alookup, aset, hk] at h ⊢
      exact ih h

theorem alookup_aset_ne {β : Type} {j k : Nat} (v : β) (l : List (Nat × β))
    (h : j ≠ k) : alookup j (aset k v l) = alookup j l := by
  induction l with
  | nil => simp [aset]
  | cons p t ih =>
    obtain ⟨k', v'⟩ := p
    by_cases hk : k' = k
    · subst hk
      simp [aset, alookup, Ne.symm h]
    · by_cases hj : k' = j
      · subst hj
        simp [aset, hk, alookup]
      · simp [aset, hk, alookup, hj, ih]

theorem map_fst_aset {β : Type} (k : Nat) (v : β) (l : List (Nat × β)) :
    (aset k v l).map Prod.fst = l.map Prod.fst := by
  induction l with
  | nil => simp [aset]
  | cons p t ih =>
    obtain ⟨k', v'⟩ := p
    by_cases hk : k' = k <;> simp [aset, hk, ih]

theorem alookup_aset_absent {β : Type} {k : Nat} (v : β) (l : List (Nat × β))
    (h : alookup k l = none) : aset k v l = l := by
  induction l with
  | nil => simp [aset]
  | cons p t ih =>
    obtain ⟨k', v'⟩ := p
    by_cases hk : k' = k
    · subst hk; simp [alookup] at h
    · simp [alookup, hk] at h
      simp [aset, hk, ih h]

theorem alookup_aerase_ne {β : Type} {j k : Nat} (l : List (Nat × β))
    (h : j ≠ k) : alookup j (aerase k l) = alookup j l := by
  induction l with
  | nil => simp [aerase]
  | cons p t ih =>
    obtain ⟨k', v'⟩ := p
    by_cases hk : k' = k
    · subst hk
      simp [aerase, alookup, Ne.symm h]
    · by_cases hj : k' = j
      · subst hj
        simp [aerase, hk, alookup]
      · simp [aerase, hk, alookup, hj, ih]

theorem alookup_aerase_self {β : Type} {k : Nat} {l : List (Nat × β)}
    (nd : (l.map Prod.fst).Nodup) : alookup k (aerase k l) = none := by
  induction l with
  | nil => simp [aerase, alookup]
  | cons p t ih =>
    obtain ⟨k', v'⟩ := p
    rw [List.map_cons, List.nodup_cons] at nd
    by_cases hk : k' = k
    · subst hk
      simp only [aerase, if_pos rfl]
      rw [alookup_eq_none_iff]
      exact nd.1
    · simp [aerase, hk, alookup]
      exact ih nd.2

theorem alookup_append {β : Type} (k : Nat) (l₁ l₂ : List (Nat × β)) :
    alookup k (l₁ ++ l₂) =
      match alookup k l₁ with
      | some v => some v
      | none => alookup k l₂ := by
  induction l₁ with
  | nil => simp [alookup]
  | cons p t ih =>
    obtain ⟨k', v'⟩ := p
    by_cases hk : k' = k <;> simp [alookup, hk, ih]

/-! ## Lemmas about the slot vector -/

theorem getD_cons_succ {α : Type} (x : α) (t : List α) (n : Nat) (d : α) :
    (x :: t).getD (n + 1) d = t.getD n d := rfl

theorem getD_cons_zero {α : Type} (x : α) (t : List α) (d : α) :
    (x :: t).getD 0 d = x := rfl

theorem getD_set_self {α : Type} {l : List α} {i : Nat} (a d : α)
    (h : i < l.length) : (l.set i a).getD i d = a := by
  induction l generalizing i with
  | nil => simp at h
  | cons x t ih =>
    cases i with
    | zero => rfl
    | succ n =>
      rw [List.set_cons_succ, getD_cons_succ]
      exact ih (by simpa using h)

theorem getD_set_ne {α : Type} {l : List α} {i j : Nat} (a d : α)
    (h : i ≠ j) : (l.set i a).getD j d = l.getD j d := by
  induction l generalizing i j with
  | nil => simp [List.set]
  | cons x t ih =>
    cases i with
    | zero =>
      cases j with
      | zero => exact absurd rfl h
      | succ m => rfl
    | succ n =>
      cases j with
      | zero => rfl
      | succ m =>
        rw [List.set_cons_succ, getD_cons_succ, getD_cons_succ]
        exact ih (by omega)

theorem getD_true_lt_length {l : List Bool} {i : Nat}
    (h : l.getD i false = true) : i < l.length := by
  by_contra hge
  rw [List.getD_eq_default] at h
  · exact Bool.false_ne_true h
  · omega

theorem count_set_true {l : List Bool} {i : Nat} (hlt : i < l.length)
    (hfalse : l.getD i false = false) :
    (l.set i true).count true = l.count true + 1 := by
  induction l generalizing i with
  | nil => simp at hlt
  | cons x t ih =>
    cases i with
    | zero =>
      rw [getD_cons_zero] at hfalse
      subst hfalse
      simp [List.count_cons]
    | succ n =>
      rw [getD_cons_succ] at hfalse
      rw [List.set_cons_succ]
      simp only [List.count_cons]
      rw [ih (by simpa using hlt) hfalse]
      omega

theorem count_set_false {l : List Bool} {i : Nat} (hlt : i < l.length)
    (htrue : l.getD i false = true) :
    (l.set i false).count true + 1 = l.count true := by
  induction l generalizing i with
  | nil => simp at hlt
  | cons x t ih =>
    cases i with
    | zero =>
      rw [getD_cons_zero] at htrue
      subst htrue
      simp [List.set, List.count_cons]
    | succ n =>
      rw [getD_cons_succ] at htrue
      rw [List.set_cons_succ]
      simp only [List.count_cons]
      rw [← ih (by simpa using hlt) htrue]
      omega

/-! ## Characterization of the reserve and free loops -/

theorem reserveSlots_ok :
    ∀ (idxs : List Nat) (hs : List Bool) (cs : List (Nat × Bool)),
    idxs.Nodup →
    (∀ i ∈ idxs, i < hs.length) →
    (∀ i ∈ idxs, hs.getD i false = false) →
    (∀ i ∈ idxs, alookup i cs = some false) →
    ∃ hs' cs', reserveSlots idxs hs cs = .ok (hs', cs') ∧
      hs'.length = hs.length ∧
      hs'.count true = hs.count true + idxs.length ∧
      (∀ j, hs'.getD j false = if j ∈ idxs then true else hs.getD j false) ∧
      (∀ j, alookup j cs' = if j ∈ idxs then some true else alookup j cs) ∧
      cs'.map Prod.fst = cs.map Prod.fst := by
  intro idxs
  induction idxs with
  | nil =>
    intro hs cs _ _ _ _
    exact ⟨hs, cs, rfl, rfl, by simp, fun j => by simp, fun j => by simp, rfl⟩
  | cons i rest ih =>
    intro hs cs nd hlt hfree hcs
    have hi_rest : i ∉ rest := (List.nodup_cons.mp nd).1
    have nd_rest : rest.Nodup := (List.nodup_cons.mp nd).2
    have hi_lt : i < hs.length := hlt i (List.mem_cons_self i rest)
    have hi_free : hs.getD i false = false := hfree i (List.mem_cons_self i rest)
    have hi_cs : alookup i cs = some false := hcs i (List.mem_cons_self i rest)
    obtain ⟨hs', cs', heq, hlen, hcount, hgetD, hlook, hfst⟩ :=
      ih (hs.set i true) (aset i true cs) nd_rest
        (fun j hj => by rw [List.length_set]; exact hlt j (List.mem_cons_of_mem i hj))
        (fun j hj => by
          rw [getD_set_ne true false (fun hij => hi_rest (by rw [hij]; exact hj))]
          exact hfree j (List.mem_cons_of_mem i hj))
        (fun j hj => by
          rw [alookup_aset_ne true cs (fun hij => hi_rest (by rw [← hij]; exact hj))]
          exact hcs j (List.mem_cons_of_mem i hj))
    refine ⟨hs', cs', ?_, ?_, ?_, ?_, ?_, ?_⟩
    · simp only [reserveSlots, hi_free, hi_cs]
      exact heq
    · rw [hlen, List.length_set]
    · rw [hcount, count_set_true hi_lt hi_free]
      simp only [List.length_cons]
      omega
    · intro j
      by_cases hj : j = i
      · subst hj
        rw [hgetD j, if_neg hi_rest, getD_set_self true false hi_lt,
          if_pos (List.mem_cons_self j rest)]
      · have hnotin1 : j ∉ ([i] : List Nat) := by simp [hj]
        by_cases hjr : j ∈ rest
        · rw [hgetD j, if_pos hjr, if_pos (List.mem_cons_of_mem i hjr)]
        · have hnotin : j ∉ i :: rest := by
            rw [List.mem_cons]
            push_neg
            exact ⟨hj, hjr⟩
          rw [hgetD j, if_neg hjr, if_neg hnotin,
            getD_set_ne true false (fun hij => hj hij.symm)]
    · intro j
      by_cases hj : j = i
      · subst hj
        rw [hlook j, if_neg hi_rest, alookup_aset_present hi_cs,
          if_pos (List.mem_cons_self j rest)]
      · by_cases hjr : j ∈ rest
        · rw [hlook j, if_pos hjr, if_pos (List.mem_cons_of_mem i hjr)]
        · have hnotin : j ∉ i :: rest := by
            rw [List.mem_cons]
            push_neg
            exact ⟨hj, hjr⟩
          rw [hlook j, if_neg hjr, if_neg hnotin, alookup_aset_ne true cs hj]
    · rw [hfst, map_fst_aset]

theorem freeSlots_ok :
    ∀ (idxs : List Nat) (hs : List Bool) (cs : List (Nat × Bool)),
    idxs.Nodup →
    (∀ i ∈ idxs, i < hs.length) →
    (∀ i ∈ idxs, hs.getD i false = true) →
    (∀ i ∈ idxs, alookup i cs = some true) →
    ∃ hs' cs', freeSlots idxs hs cs = .ok (hs', cs') ∧
      hs'.length = hs.length ∧
      hs'.count true + idxs.length = hs.count true ∧
      (∀ j, hs'.getD j false = if j ∈ idxs then false else hs.getD j false) ∧
      (∀ j, alookup j cs' = if j ∈ idxs then some false else alookup j cs) ∧
      cs'.map Prod.fst = cs.map Prod.fst := by
  intro idxs
  induction idxs with
  | nil =>
    intro hs cs _ _ _ _
    exact ⟨hs, cs, rfl, rfl, by simp, fun j => by simp, fun j => by simp, rfl⟩
  | cons i rest ih =>
    intro hs cs nd hlt hocc hcs
    have hi_rest : i ∉ rest := (List.nodup_cons.mp nd).1
    have nd_rest : rest.Nodup := (List.nodup_cons.mp nd).2
    have hi_lt : i < hs.length := hlt i (List.mem_cons_self i rest)
    have hi_occ : hs.getD i false = true := hocc i (List.mem_cons_self i rest)
    have hi_cs : alookup i cs = some true := hcs i (List.mem_cons_self i rest)
    obtain ⟨hs', cs', heq, hlen, hcount, hgetD, hlook, hfst⟩ :=
      ih (hs.set i false) (aset i false cs) nd_rest
        (fun j hj => by rw [List.length_set]; exact hlt j (List.mem_cons_of_mem i hj))
        (fun j hj => by
          rw [getD_set_ne false false (fun hij => hi_rest (by rw [hij]; exact hj))]
          exact hocc j (List.mem_cons_of_mem i hj))
        (fun j hj => by
          rw [alookup_aset_ne false cs (fun hij => hi_rest (by rw [← hij]; exact hj))]
          exact hcs j (List.mem_cons_of_mem i hj))
    refine ⟨hs', cs', ?_, ?_, ?_, ?_, ?_, ?_⟩
    · simp only [freeSlots, hi_occ, hi_cs]
      exact heq
    · rw [hlen, List.length_set]
    · have h1 : (hs.set i false).count true + 1 = hs.count true :=
        count_set_false hi_lt hi_occ
      simp only [List.length_cons]
      omega
    · intro j
      by_cases hj : j = i
      · subst hj
        rw [hgetD j, if_neg hi_rest, getD_set_self false false hi_lt,
          if_pos (List.mem_cons_self j rest)]
      · by_cases hjr : j ∈ rest
        · rw [hgetD j, if_pos hjr, if_pos (List.mem_cons_of_mem i hjr)]
        · have hnotin : j ∉ i :: rest := by
            rw [List.mem_cons]
            push_neg
            exact ⟨hj, hjr⟩
          rw [hgetD j, if_neg hjr, if_neg hnotin,
            getD_set_ne false false (fun hij => hj hij.symm)]
    · intro j
      by_cases hj : j = i
      · subst hj
        rw [hlook j, if_neg hi_rest, alookup_aset_present hi_cs,
          if_pos (List.mem_cons_self j rest)]
      · by_cases hjr : j ∈ rest
        · rw [hlook j, if_pos hjr, if_pos (List.mem_cons_of_mem i hjr)]
        · have hnotin : j ∉ i :: rest := by
            rw [List.mem_cons]
            push_neg
            exact ⟨hj, hjr⟩
          rw [hlook j, if_neg hjr, if_neg hnotin, alookup_aset_ne false cs hj]
    · rw [hfst, map_fst_aset]

theorem getD_replicate_false (n i : Nat) :
    (List.replicate n false).getD i false = false := by
  induction n generalizing i with
  | zero => simp [List.getD]
  | succ m ih =>
    cases i with
    | zero => rfl
    | succ j =>
      rw [List.replicate_succ, getD_cons_succ]
      exact ih j

/-- A freshly created bucket satisfies the invariant. -/
theorem new_wf (scid : Nat) (params : BucketParameters) (b : GeneralBucket)
    (h : GeneralBucket.new scid params = .ok b) : BucketWF b := by
  unfold GeneralBucket.new at h
  by_cases h0 : params.slot_count = 0
  · simp [h0] at h
  · simp only [h0, if_false] at h
    by_cases h1 : params.liquidity_msat / params.slot_count = 0
    · simp [h1] at h
    · simp only [h1, if_false, Except.ok.injEq] at h
      subst h
      constructor
      · simpa using Nat.pos_of_ne_zero h0
      · rfl
      · simp
      · intro c m hm
        simp [alookup] at hm
      · intro c m hm
        simp [alookup] at hm
      · intro i
        simp only [getD_replicate_false]
        constructor
        · intro hf
          exact absurd hf Bool.false_ne_true
        · rintro ⟨c, m, hm, _⟩
          simp [alookup] at hm
      · intro i c₁ m₁ c₂ m₂ h₁ h₂ _ _
        simp [alookup] at h₁

theorem alookup_append_single {β : Type} (x c : Nat) (r : β) (l : List (Nat × β)) :
    alookup x (l ++ [(c, r)]) =
      match alookup x l with
      | some v => some v
      | none => if c = x then some r else none := by
  rw [alookup_append]
  rfl

/-! ## Properties of the slot-assignment loop -/

theorem deriveIdx_lt (salt : List Nat) (own cand attempt len : Nat)
    (h : 0 < len) : deriveIdx salt own cand attempt len < len :=
  Nat.mod_lt _ h

theorem assignGo_spec (salt : List Nat) (own cand len : Nat) (hlen : 0 < len) :
    ∀ (fuel attempt : Nat) (acc : List (Nat × Bool)),
    (acc.map Prod.fst).Nodup →
    (∀ p ∈ acc, p.2 = false) →
    (∀ p ∈ acc, p.1 < len) →
    acc.length ≤ ASSIGNED_SLOTS →
    ((assignGo salt own cand len fuel attempt acc).map Prod.fst).Nodup ∧
      (∀ p ∈ assignGo salt own cand len fuel attempt acc, p.2 = false) ∧
      (∀ p ∈ assignGo salt own cand len fuel attempt acc, p.1 < len) ∧
      (assignGo salt own cand len fuel attempt acc).length ≤ ASSIGNED_SLOTS := by
  intro fuel
  induction fuel with
  | zero =>
    intro attempt acc h1 h2 h3 h4
    exact ⟨h1, h2, h3, h4⟩
  | succ f ih =>
    intro attempt acc h1 h2 h3 h4
    by_cases hfull : acc.length = ASSIGNED_SLOTS
    · simp only [assignGo, hfull, if_pos rfl]
      exact ⟨h1, h2, h3, h4⟩
    · simp only [assignGo, hfull, if_false]
      have hderiv := deriveIdx_lt salt own cand attempt len hlen
      generalize hidx : deriveIdx salt own cand attempt len = idx at *
      by_cases hdup : (alookup idx acc).isSome
      · simp only [hdup, if_pos rfl]
        exact ih (attempt + 1) acc h1 h2 h3 h4
      · simp only [hdup, if_false]
        refine ih (attempt + 1) (acc ++ [(idx, false)]) ?_ ?_ ?_ ?_
        · rw [List.map_append]
          simp only [List.map_cons, List.map_nil]
          rw [List.nodup_append]
          refine ⟨h1, List.nodup_singleton _, ?_⟩
          intro a ha hb
          rw [List.mem_singleton] at hb
          rw [hb] at ha
          rw [← alookup_isSome_iff] at ha
          exact hdup ha
        · intro p hp
          rcases List.mem_append.mp hp with h | h
          · exact h2 p h
          · rw [List.mem_singleton] at h
            rw [h]
        · intro p hp
          rcases List.mem_append.mp hp with h | h
          · exact h3 p h
          · rw [List.mem_singleton] at h
            rw [h]
            exact hderiv
        · rw [List.length_append, List.length_singleton]
          omega

theorem assignGo_keys (salt : List Nat) (own cand len : Nat) :
    ∀ (fuel attempt : Nat) (acc : List (Nat × Bool)),
    ∀ p ∈ assignGo salt own cand len fuel attempt acc,
      p ∈ acc ∨ ∃ a, attempt ≤ a ∧ a < attempt + fuel ∧
        p.1 = deriveIdx salt own cand a len := by
  intro fuel
  induction fuel with
  | zero =>
    intro attempt acc p hp
    exact Or.inl hp
  | succ f ih =>
    intro attempt acc p hp
    by_cases hfull : acc.length = ASSIGNED_SLOTS
    · simp only [assignGo, hfull, if_pos rfl] at hp
      exact Or.inl hp
    · simp only [assignGo, hfull, if_false] at hp
      by_cases hdup : (alookup (deriveIdx salt own cand attempt len) acc).isSome
      · simp only [hdup, if_pos rfl] at hp
        rcases ih (attempt + 1) acc p hp with h | ⟨a, ha1, ha2, ha3⟩
        · exact Or.inl h
        · exact Or.inr ⟨a, by omega, by omega, ha3⟩
      · simp only [hdup, if_false] at hp
        rcases ih (attempt + 1) _ p hp with h | ⟨a, ha1, ha2, ha3⟩
        · rcases List.mem_append.mp h with h | h
          · exact Or.inl h
          · simp at h
            refine Or.inr ⟨attempt, Nat.le_refl _, by omega, ?_⟩
            rw [h]
        · exact Or.inr ⟨a, by omega, by omega, ha3⟩

theorem alookup_append_single_ne {β : Type} {x c : Nat} (r : β)
    (l : List (Nat × β)) (hne : c ≠ x) :
    alookup x (l ++ [(c, r)]) = alookup x l := by
  rw [alookup_append_single]
  cases h : alookup x l with
  | some v => rfl
  | none => exact if_neg hne

theorem alookup_append_single_eq {β : Type} {x : Nat} (r : β)
    (l : List (Nat × β)) (hx : alookup x l = none) :
    alookup x (l ++ [(x, r)]) = some r := by
  rw [alookup_append_single, hx]
  exact if_pos rfl

/-- Inserting a fresh candidate whose slots are all unused preserves the
bucket invariant. -/
theorem wf_insert_fresh (b : GeneralBucket) (wf : BucketWF b) (c : Nat)
    (hcs : c ≠ b.scid)
    (hc : alookup c b.candidate_slots = none) (r : List (Nat × Bool))
    (hnd : (r.map Prod.fst).Nodup) (hfalse : ∀ p ∈ r, p.2 = false)
    (hlt : ∀ p ∈ r, p.1 < b.htlc_slots.length) :
    BucketWF { b with candidate_slots := b.candidate_slots ++ [(c, r)] } := by
  have hcase : ∀ (x : Nat) (m : List (Nat × Bool)),
      alookup x (b.candidate_slots ++ [(c, r)]) = some m →
      alookup x b.candidate_slots = some m ∨
        (alookup x b.candidate_slots = none ∧ x = c ∧ m = r) := by
    intro x m hx
    by_cases hcx : c = x
    · subst hcx
      cases hxl : alookup c b.candidate_slots with
      | some v =>
        rw [alookup_append_single, hxl] at hx
        exact Or.inl hx
      | none =>
        rw [alookup_append_single_eq r _ hxl] at hx
        injection hx with hx
        exact Or.inr ⟨rfl, rfl, hx.symm⟩
    · rw [alookup_append_single_ne r _ hcx] at hx
      exact Or.inl hx
  have hval_false : ∀ (i : Nat), alookup i r = some true → False := by
    intro i hi
    have := hfalse (i, true) (alookup_mem hi)
    simp at this
  constructor
  · exact wf.pos
  · show alookup b.scid (b.candidate_slots ++ [(c, r)]) = none
    rw [alookup_append_single_ne r _ hcs]
    exact wf.not_self
  · show ((b.candidate_slots ++ [(c, r)]).map Prod.fst).Nodup
    rw [List.map_append]
    simp only [List.map_cons, List.map_nil]
    rw [List.nodup_append]
    refine ⟨wf.keys_nodup, List.nodup_singleton _, ?_⟩
    intro a ha hb
    rw [List.mem_singleton] at hb
    rw [hb] at ha
    rw [← alookup_isSome_iff, hc] at ha
    simp at ha
  · intro c₂ m hm
    rcases hcase c₂ m hm with h | ⟨_, _, hm2⟩
    · exact wf.slot_nodup c₂ m h
    · rw [hm2]
      exact hnd
  · intro c₂ m hm p hp
    rcases hcase c₂ m hm with h | ⟨_, _, hm2⟩
    · exact wf.slot_lt c₂ m h p hp
    · rw [hm2] at hp
      exact hlt p hp
  · intro i
    show b.htlc_slots.getD i false = true ↔ _
    rw [wf.consistent i]
    constructor
    · rintro ⟨c₂, m, hm, hi⟩
      refine ⟨c₂, m, ?_, hi⟩
      rw [alookup_append_single, hm]
    · rintro ⟨c₂, m, hm, hi⟩
      rcases hcase c₂ m hm with h | ⟨_, _, hm2⟩
      · exact ⟨c₂, m, h, hi⟩
      · rw [hm2] at hi
        exact absurd hi (fun hi => hval_false i hi)
  · intro i c₁ m₁ c₂ m₂ h₁ h₂ ht₁ ht₂
    rcases hcase c₁ m₁ h₁ with g₁ | ⟨_, _, hm₁⟩
    · rcases hcase c₂ m₂ h₂ with g₂ | ⟨_, _, hm₂⟩
      · exact wf.unique i c₁ m₁ c₂ m₂ g₁ g₂ ht₁ ht₂
      · rw [hm₂] at ht₂
        exact absurd ht₂ (fun h => hval_false i h)
    · rw [hm₁] at ht₁
      exact absurd ht₁ (fun h => hval_false i h)

/-! ## Characterization of `get_candidate_slots` -/

theorem gcs_self (b : GeneralBucket) (salt : List Nat) :
    b.get_candidate_slots salt b.scid = .error .ErrUnrecoverable := by
  simp [GeneralBucket.get_candidate_slots]

theorem gcs_memo (b : GeneralBucket) (salt : List Nat) (c : Nat)
    (m : List (Nat × Bool)) (hne : c ≠ b.scid)
    (hm : alookup c b.candidate_slots = some m) :
    b.get_candidate_slots salt c = .ok (m.map Prod.fst, b) := by
  simp [GeneralBucket.get_candidate_slots, hne, hm]

theorem gcs_fresh_fail (b : GeneralBucket) (salt : List Nat) (c : Nat)
    (hne : c ≠ b.scid) (hc : alookup c b.candidate_slots = none)
    (hpos : 0 < b.htlc_slots.length)
    (hlen : (assignGo salt b.scid c b.htlc_slots.length (ASSIGNED_SLOTS * 2) 0
      []).length < ASSIGNED_SLOTS) :
    b.get_candidate_slots salt c = .error .ErrUnrecoverable := by
  rw [GeneralBucket.get_candidate_slots]
  rw [if_neg hne, hc]
  simp only [if_neg (Nat.pos_iff_ne_zero.mp hpos), if_pos hlen]

theorem gcs_fresh_ok (b : GeneralBucket) (salt : List Nat) (c : Nat)
    (hne : c ≠ b.scid) (hc : alookup c b.candidate_slots = none)
    (hpos : 0 < b.htlc_slots.length)
    (hlen : ¬((assignGo salt b.scid c b.htlc_slots.length (ASSIGNED_SLOTS * 2) 0
      []).length < ASSIGNED_SLOTS)) :
    b.get_candidate_slots salt c =
      .ok ((assignGo salt b.scid c b.htlc_slots.length (ASSIGNED_SLOTS * 2) 0
        []).map Prod.fst,
        { b with candidate_slots := b.candidate_slots ++
          [(c, assignGo salt b.scid c b.htlc_slots.length (ASSIGNED_SLOTS * 2)
            0 [])] }) := by
  rw [GeneralBucket.get_candidate_slots]
  rw [if_neg hne, hc]
  simp only [if_neg (Nat.pos_iff_ne_zero.mp hpos), if_neg hlen]

theorem alookup_aset_cases {β : Type} (c : Nat) (v : β) (l : List (Nat × β))
    (m : β) (hm : alookup c l = some m) (x : Nat) :
    alookup x (aset c v l) = if x = c then some v else alookup x l := by
  by_cases hx : x = c
  · subst hx
    rw [if_pos rfl]
    exact alookup_aset_present hm
  · rw [if_neg hx]
    exact alookup_aset_ne v l hx

/-! ## Characterization of admission and removal for a memoised candidate -/

theorem usable_memo (b : GeneralBucket) (salt : List Nat) (c amt : Nat)
    (m : List (Nat × Bool)) (hne : c ≠ b.scid)
    (hm : alookup c b.candidate_slots = some m) :
    b.get_usable_slots salt c amt =
      (if ((m.map Prod.fst).filter
            (fun i => !(b.htlc_slots.getD i false))).length <
          b.required_slot_count amt then
        .ok (none, b)
      else
        .ok (some (((m.map Prod.fst).filter
          (fun i => !(b.htlc_slots.getD i false))).take
            (b.required_slot_count amt)), b)) := by
  rw [GeneralBucket.get_usable_slots, gcs_memo b salt c m hne hm]

theorem may_add_htlc_memo (b : GeneralBucket) (salt : List Nat) (c amt : Nat)
    (m : List (Nat × Bool)) (hne : c ≠ b.scid)
    (hm : alookup c b.candidate_slots = some m) :
    b.may_add_htlc salt c amt =
      .ok (!(((m.map Prod.fst).filter
          (fun i => !(b.htlc_slots.getD i false))).length <
        b.required_slot_count amt), b) := by
  rw [GeneralBucket.may_add_htlc, usable_memo b salt c amt m hne hm]
  by_cases h : ((m.map Prod.fst).filter
      (fun i => !(b.htlc_slots.getD i false))).length < b.required_slot_count amt
  · rw [if_pos h, decide_eq_true h]
    rfl
  · rw [if_neg h, decide_eq_false h]
    rfl

theorem add_htlc_memo_none (b : GeneralBucket) (salt : List Nat) (c amt : Nat)
    (m : List (Nat × Bool)) (hne : c ≠ b.scid)
    (hm : alookup c b.candidate_slots = some m)
    (hroom : ((m.map Prod.fst).filter
        (fun i => !(b.htlc_slots.getD i false))).length <
      b.required_slot_count amt) :
    b.add_htlc salt c amt = .ok (false, b) := by
  rw [GeneralBucket.add_htlc, usable_memo b salt c amt m hne hm, if_pos hroom]

theorem add_htlc_memo_some (b : GeneralBucket) (wf : BucketWF b)
    (salt : List Nat) (c amt : Nat) (m : List (Nat × Bool))
    (hm : alookup c b.candidate_slots = some m)
    (hroom : b.required_slot_count amt ≤
      ((m.map Prod.fst).filter (fun i => !(b.htlc_slots.getD i false))).length) :
    ∃ b', b.add_htlc salt c amt = .ok (true, b') ∧ BucketWF b' ∧
      b'.htlc_slots.length = b.htlc_slots.length ∧
      b'.htlc_slots.count true =
        b.htlc_slots.count true + b.required_slot_count amt ∧
      b'.params = b.params ∧ b'.scid = b.scid ∧
      b'.slot_size_msat = b.slot_size_msat := by
  have hne : c ≠ b.scid := by
    intro hcc
    rw [hcc, wf.not_self] at hm
    exact Option.noConfusion hm
  have hnd_m : (m.map Prod.fst).Nodup := wf.slot_nodup c m hm
  have hnd_avail : ((m.map Prod.fst).filter
      (fun i => !(b.htlc_slots.getD i false))).Nodup := hnd_m.filter _
  have hnd_sel : (((m.map Prod.fst).filter
      (fun i => !(b.htlc_slots.getD i false))).take
        (b.required_slot_count amt)).Nodup :=
    List.Nodup.sublist (List.take_sublist _ _) hnd_avail
  have hsel_avail : ∀ i ∈ ((m.map Prod.fst).filter
      (fun i => !(b.htlc_slots.getD i false))).take (b.required_slot_count amt),
      i ∈ (m.map Prod.fst).filter (fun i => !(b.htlc_slots.getD i false)) :=
    fun i hi => List.take_subset _ _ hi
  have havail_free : ∀ i ∈ (m.map Prod.fst).filter
      (fun i => !(b.htlc_slots.getD i false)), b.htlc_slots.getD i false = false := by
    intro i hi
    have h2 := (List.mem_filter.mp hi).2
    cases hgd : b.htlc_slots.getD i false
    · rfl
    · rw [hgd] at h2
      exact Bool.noConfusion h2
  have havail_keys : ∀ i ∈ (m.map Prod.fst).filter
      (fun i => !(b.htlc_slots.getD i false)), i ∈ m.map Prod.fst :=
    fun i hi => (List.mem_filter.mp hi).1
  have hkey_lt : ∀ i ∈ m.map Prod.fst, i < b.htlc_slots.length := by
    intro i hi
    obtain ⟨p, hp, hpi⟩ := List.mem_map.mp hi
    rw [← hpi]
    exact wf.slot_lt c m hm p hp
  have hkey_lookup : ∀ i ∈ m.map Prod.fst, b.htlc_slots.getD i false = false →
      alookup i m = some false := by
    intro i hi hfree
    rw [← alookup_isSome_iff] at hi
    obtain ⟨v, hv⟩ := Option.isSome_iff_exists.mp hi
    cases v with
    | false => exact hv
    | true =>
      have := (wf.consistent i).mpr ⟨c, m, hm, hv⟩
      rw [this] at hfree
      exact Bool.noConfusion hfree
  obtain ⟨hs', cs', heq, hlen, hcount, hgetD, hlook, hfst⟩ :=
    reserveSlots_ok
      (((m.map Prod.fst).filter (fun i => !(b.htlc_slots.getD i false))).take
        (b.required_slot_count amt))
      b.htlc_slots m hnd_sel
      (fun i hi => hkey_lt i (havail_keys i (hsel_avail i hi)))
      (fun i hi => havail_free i (hsel_avail i hi))
      (fun i hi => hkey_lookup i (havail_keys i (hsel_avail i hi))
        (havail_free i (hsel_avail i hi)))
  have hsel_len : (((m.map Prod.fst).filter
      (fun i => !(b.htlc_slots.getD i false))).take
        (b.required_slot_count amt)).length = b.required_slot_count amt := by
    rw [List.length_take]
    exact Nat.min_eq_left hroom
  have hlookB : ∀ x, alookup x (aset c cs' b.candidate_slots) =
      if x = c then some cs' else alookup x b.candidate_slots :=
    alookup_aset_cases c cs' b.candidate_slots m hm
  refine ⟨{ b with htlc_slots := hs', candidate_slots := aset c cs' b.candidate_slots }, ?_, ?_, hlen, by rw [hcount, hsel_len], rfl, rfl, rfl⟩
  · rw [GeneralBucket.add_htlc, usable_memo b salt c amt m hne hm,
      if_neg (Nat.not_lt.mpr hroom)]
    simp only [hm, heq]
  · constructor
    · show 0 < hs'.length
      rw [hlen]
      exact wf.pos
    · show alookup b.scid (aset c cs' b.candidate_slots) = none
      rw [hlookB b.scid, if_neg (fun h => hne h.symm)]
      exact wf.not_self
    · show ((aset c cs' b.candidate_slots).map Prod.fst).Nodup
      rw [map_fst_aset]
      exact wf.keys_nodup
    · intro x mx hx
      rw [hlookB x] at hx
      by_cases hxc : x = c
      · rw [if_pos hxc] at hx
        injection hx with hx
        rw [← hx, hfst]
        exact hnd_m
      · rw [if_neg hxc] at hx
        exact wf.slot_nodup x mx hx
    · intro x mx hx p hp
      show p.1 < hs'.length
      rw [hlen]
      rw [hlookB x] at hx
      by_cases hxc : x = c
      · rw [if_pos hxc] at hx
        injection hx with hx
        rw [← hx] at hp
        have : p.1 ∈ cs'.map Prod.fst := List.mem_map_of_mem Prod.fst hp
        rw [hfst] at this
        exact hkey_lt p.1 this
      · rw [if_neg hxc] at hx
        exact wf.slot_lt x mx hx p hp
    · intro i
      show hs'.getD i false = true ↔ _
      rw [hgetD i]
      by_cases hi : i ∈ ((m.map Prod.fst).filter
          (fun i => !(b.htlc_slots.getD i false))).take (b.required_slot_count amt)
      · rw [if_pos hi]
        constructor
        · intro _
          refine ⟨c, cs', ?_, ?_⟩
          · rw [hlookB c, if_pos rfl]
          · rw [hlook i, if_pos hi]
        · intro _
          rfl
      · rw [if_neg hi]
        rw [wf.consistent i]
        constructor
        · rintro ⟨x, mx, hx, hv⟩
          by_cases hxc : x = c
          · subst hxc
            rw [hm] at hx
            injection hx with hx
            subst hx
            refine ⟨x, cs', ?_, ?_⟩
            · rw [hlookB x, if_pos rfl]
            · rw [hlook i, if_neg hi]
              exact hv
          · refine ⟨x, mx, ?_, hv⟩
            rw [hlookB x, if_neg hxc]
            exact hx
        · rintro ⟨x, mx, hx, hv⟩
          rw [hlookB x] at hx
          by_cases hxc : x = c
          · rw [if_pos hxc] at hx
            injection hx with hx
            rw [← hx, hlook i, if_neg hi] at hv
            exact ⟨c, m, hm, hv⟩
          · rw [if_neg hxc] at hx
            exact ⟨x, mx, hx, hv⟩
    · intro i x₁ m₁ x₂ m₂ h₁ h₂ ht₁ ht₂
      rw [hlookB x₁] at h₁
      rw [hlookB x₂] at h₂
      have hold : ∀ (y : Nat) (my : List (Nat × Bool)),
          alookup y b.candidate_slots = some my → alookup i my = some true →
          y ≠ c → i ∉ ((m.map Prod.fst).filter
            (fun i => !(b.htlc_slots.getD i false))).take
              (b.required_slot_count amt) := by
        intro y my hy hvy hyc hisel
        have hbit : b.htlc_slots.getD i false = true :=
          (wf.consistent i).mpr ⟨y, my, hy, hvy⟩
        have hfree := havail_free i (hsel_avail i hisel)
        rw [hbit] at hfree
        exact Bool.noConfusion hfree
      by_cases h1c : x₁ = c
      · by_cases h2c : x₂ = c
        · rw [h1c, h2c]
        · rw [if_neg h2c] at h₂
          rw [if_pos h1c] at h₁
          injection h₁ with h₁
          rw [← h₁] at ht₁
          rw [hlook i] at ht₁
          by_cases hisel : i ∈ ((m.map Prod.fst).filter
              (fun i => !(b.htlc_slots.getD i false))).take
                (b.required_slot_count amt)
          · exact absurd hisel (hold x₂ m₂ h₂ ht₂ h2c)
          · rw [if_neg hisel] at ht₁
            exact wf.unique i c m x₂ m₂ hm h₂ ht₁ ht₂ ▸ h1c
      · rw [if_neg h1c] at h₁
        by_cases h2c : x₂ = c
        · rw [if_pos h2c] at h₂
          injection h₂ with h₂
          rw [← h₂] at ht₂
          rw [hlook i] at ht₂
          by_cases hisel : i ∈ ((m.map Prod.fst).filter
              (fun i => !(b.htlc_slots.getD i false))).take
                (b.required_slot_count amt)
          · exact absurd hisel (hold x₁ m₁ h₁ ht₁ h1c)
          · rw [if_neg hisel] at ht₂
            have := wf.unique i x₁ m₁ c m h₁ hm ht₁ ht₂
            rw [this, h2c]
        · rw [if_neg h2c] at h₂
          exact wf.unique i x₁ m₁ x₂ m₂ h₁ h₂ ht₁ ht₂

theorem remove_htlc_empty (b : GeneralBucket) (c amt : Nat)
    (m : List (Nat × Bool)) (hm : alookup c b.candidate_slots = some m)
    (hlt : ((m.filter (fun p => p.2)).map Prod.fst).length <
      b.required_slot_count amt) :
    b.remove_htlc c amt = .error (.ErrBucketTooEmpty amt) := by
  rw [GeneralBucket.remove_htlc]
  simp only [hm]
  rw [if_pos hlt]

theorem remove_htlc_ok (b : GeneralBucket) (wf : BucketWF b) (c amt : Nat)
    (m : List (Nat × Bool)) (hm : alookup c b.candidate_slots = some m)
    (hspace : b.required_slot_count amt ≤
      ((m.filter (fun p => p.2)).map Prod.fst).length) :
    ∃ b', b.remove_htlc c amt = .ok b' ∧ BucketWF b' ∧
      b'.htlc_slots.length = b.htlc_slots.length ∧
      b'.htlc_slots.count true + b.required_slot_count amt =
        b.htlc_slots.count true ∧
      b'.params = b.params ∧ b'.scid = b.scid ∧
      b'.slot_size_msat = b.slot_size_msat := by
  have hne : c ≠ b.scid := by
    intro hcc
    rw [hcc, wf.not_self] at hm
    exact Option.noConfusion hm
  have hnd_m : (m.map Prod.fst).Nodup := wf.slot_nodup c m hm
  have hnd_occ : ((m.filter (fun p => p.2)).map Prod.fst).Nodup :=
    List.Nodup.sublist (List.Sublist.map Prod.fst (List.filter_sublist m)) hnd_m
  have hnd_sel : (((m.filter (fun p => p.2)).map Prod.fst).take
      (b.required_slot_count amt)).Nodup :=
    List.Nodup.sublist (List.take_sublist _ _) hnd_occ
  have hocc_true : ∀ i ∈ (m.filter (fun p => p.2)).map Prod.fst,
      alookup i m = some true := by
    intro i hi
    obtain ⟨p, hp, hpi⟩ := List.mem_map.mp hi
    have hpm := List.mem_filter.mp hp
    have hp2 : p.2 = true := by simpa using hpm.2
    have : (i, true) ∈ m := by
      rw [← hpi, ← hp2]
      exact hpm.1
    exact mem_alookup_of_nodup hnd_m this
  have hsel_occ : ∀ i ∈ ((m.filter (fun p => p.2)).map Prod.fst).take
      (b.required_slot_count amt), i ∈ (m.filter (fun p => p.2)).map Prod.fst :=
    fun i hi => List.take_subset _ _ hi
  have hsel_bit : ∀ i ∈ ((m.filter (fun p => p.2)).map Prod.fst).take
      (b.required_slot_count amt), b.htlc_slots.getD i false = true :=
    fun i hi => (wf.consistent i).mpr ⟨c, m, hm, hocc_true i (hsel_occ i hi)⟩
  have hsel_lt : ∀ i ∈ ((m.filter (fun p => p.2)).map Prod.fst).take
      (b.required_slot_count amt), i < b.htlc_slots.length := by
    intro i hi
    have := alookup_mem (hocc_true i (hsel_occ i hi))
    exact wf.slot_lt c m hm (i, true) this
  obtain ⟨hs', cs', heq, hlen, hcount, hgetD, hlook, hfst⟩ :=
    freeSlots_ok
      (((m.filter (fun p => p.2)).map Prod.fst).take (b.required_slot_count amt))
      b.htlc_slots m hnd_sel hsel_lt hsel_bit
      (fun i hi => hocc_true i (hsel_occ i hi))
  have hsel_len : (((m.filter (fun p => p.2)).map Prod.fst).take
      (b.required_slot_count amt)).length = b.required_slot_count amt := by
    rw [List.length_take]
    exact Nat.min_eq_left hspace
  have hlookB : ∀ x, alookup x (aset c cs' b.candidate_slots) =
      if x = c then some cs' else alookup x b.candidate_slots :=
    alookup_aset_cases c cs' b.candidate_slots m hm
  refine ⟨{ b with htlc_slots := hs', candidate_slots := aset c cs' b.candidate_slots }, ?_, ?_, hlen, by rw [← hsel_len, hcount], rfl, rfl, rfl⟩
  · rw [GeneralBucket.remove_htlc]
    simp only [hm]
    rw [if_neg (Nat.not_lt.mpr hspace)]
    simp only [heq]
  · constructor
    · show 0 < hs'.length
      rw [hlen]
      exact wf.pos
    · show alookup b.scid (aset c cs' b.candidate_slots) = none
      rw [hlookB b.scid, if_neg (fun h => hne h.symm)]
      exact wf.not_self
    · show ((aset c cs' b.candidate_slots).map Prod.fst).Nodup
      rw [map_fst_aset]
      exact wf.keys_nodup
    · intro x mx hx
      rw [hlookB x] at hx
      by_cases hxc : x = c
      · rw [if_pos hxc] at hx
        injection hx with hx
        rw [← hx, hfst]
        exact hnd_m
      · rw [if_neg hxc] at hx
        exact wf.slot_nodup x mx hx
    · intro x mx hx p hp
      show p.1 < hs'.length
      rw [hlen]
      rw [hlookB x] at hx
      by_cases hxc : x = c
      · rw [if_pos hxc] at hx
        injection hx with hx
        rw [← hx] at hp
        have hkey : p.1 ∈ cs'.map Prod.fst := List.mem_map_of_mem Prod.fst hp
        rw [hfst] at hkey
        obtain ⟨q, hq, hqi⟩ := List.mem_map.mp hkey
        rw [← hqi]
        exact wf.slot_lt c m hm q hq
      · rw [if_neg hxc] at hx
        exact wf.slot_lt x mx hx p hp
    · intro i
      show hs'.getD i false = true ↔ _
      rw [hgetD i]
      by_cases hi : i ∈ ((m.filter (fun p => p.2)).map Prod.fst).take
          (b.required_slot_count amt)
      · rw [if_pos hi]
        constructor
        · intro hf
          exact absurd hf Bool.false_ne_true
        · rintro ⟨x, mx, hx, hv⟩
          rw [hlookB x] at hx
          by_cases hxc : x = c
          · rw [if_pos hxc] at hx
            injection hx with hx
            rw [← hx, hlook i, if_pos hi] at hv
            injection hv
          · rw [if_neg hxc] at hx
            have := wf.unique i x mx c m hx hm hv (hocc_true i (hsel_occ i hi))
            exact absurd this hxc
      · rw [if_neg hi]
        rw [wf.consistent i]
        constructor
        · rintro ⟨x, mx, hx, hv⟩
          by_cases hxc : x = c
          · subst hxc
            rw [hm] at hx
            injection hx with hx
            subst hx
            refine ⟨x, cs', ?_, ?_⟩
            · rw [hlookB x, if_pos rfl]
            · rw [hlook i, if_neg hi]
              exact hv
          · refine ⟨x, mx, ?_, hv⟩
            rw [hlookB x, if_neg hxc]
            exact hx
        · rintro ⟨x, mx, hx, hv⟩
          rw [hlookB x] at hx
          by_cases hxc : x = c
          · rw [if_pos hxc] at hx
            injection hx with hx
            rw [← hx, hlook i, if_neg hi] at hv
            exact ⟨c, m, hm, hv⟩
          · rw [if_neg hxc] at hx
            exact ⟨x, mx, hx, hv⟩
    · intro i x₁ m₁ x₂ m₂ h₁ h₂ ht₁ ht₂
      rw [hlookB x₁] at h₁
      rw [hlookB x₂] at h₂
      by_cases h1c : x₁ = c
      · by_cases h2c : x₂ = c
        · rw [h1c, h2c]
        · rw [if_pos h1c] at h₁
          rw [if_neg h2c] at h₂
          injection h₁ with h₁
          rw [← h₁] at ht₁
          rw [hlook i] at ht₁
          by_cases hisel : i ∈ ((m.filter (fun p => p.2)).map Prod.fst).take
              (b.required_slot_count amt)
          · rw [if_pos hisel] at ht₁
            injection ht₁ with ht₁
            exact Bool.noConfusion ht₁
          · rw [if_neg hisel] at ht₁
            exact wf.unique i c m x₂ m₂ hm h₂ ht₁ ht₂ ▸ h1c
      · rw [if_neg h1c] at h₁
        by_cases h2c : x₂ = c
        · rw [if_pos h2c] at h₂
          injection h₂ with h₂
          rw [← h₂] at ht₂
          rw [hlook i] at ht₂
          by_cases hisel : i ∈ ((m.filter (fun p => p.2)).map Prod.fst).take
              (b.required_slot_count amt)
          · rw [if_pos hisel] at ht₂
            injection ht₂ with ht₂
            exact Bool.noConfusion ht₂
          · rw [if_neg hisel] at ht₂
            have := wf.unique i x₁ m₁ c m h₁ hm ht₁ ht₂
            rw [this, h2c]
        · rw [if_neg h2c] at h₂
          exact wf.unique i x₁ m₁ x₂ m₂ h₁ h₂ ht₁ ht₂

/-! ## The remaining cases of admission and removal -/

theorem add_htlc_self (b : GeneralBucket) (salt : List Nat) (amt : Nat) :
    b.add_htlc salt b.scid amt = .error .ErrUnrecoverable := by
  rw [GeneralBucket.add_htlc, GeneralBucket.get_usable_slots, gcs_self]

theorem add_htlc_fresh_fail (b : GeneralBucket) (salt : List Nat) (c amt : Nat)
    (hne : c ≠ b.scid) (hc : alookup c b.candidate_slots = none)
    (hpos : 0 < b.htlc_slots.length)
    (hfail : (assignGo salt b.scid c b.htlc_slots.length (ASSIGNED_SLOTS * 2) 0
      []).length < ASSIGNED_SLOTS) :
    b.add_htlc salt c amt = .error .ErrUnrecoverable := by
  rw [GeneralBucket.add_htlc, GeneralBucket.get_usable_slots,
    gcs_fresh_fail b salt c hne hc hpos hfail]

theorem add_htlc_fresh_eq (b : GeneralBucket) (salt : List Nat) (c amt : Nat)
    (hne : c ≠ b.scid) (hc : alookup c b.candidate_slots = none)
    (hpos : 0 < b.htlc_slots.length)
    (hlen : ¬((assignGo salt b.scid c b.htlc_slots.length (ASSIGNED_SLOTS * 2)
      0 []).length < ASSIGNED_SLOTS)) :
    b.add_htlc salt c amt =
      GeneralBucket.add_htlc
        { b with candidate_slots := b.candidate_slots ++
          [(c, assignGo salt b.scid c b.htlc_slots.length (ASSIGNED_SLOTS * 2)
            0 [])] } salt c amt := by
  have h1 : b.get_usable_slots salt c amt =
      GeneralBucket.get_usable_slots
        { b with candidate_slots := b.candidate_slots ++
          [(c, assignGo salt b.scid c b.htlc_slots.length (ASSIGNED_SLOTS * 2)
            0 [])] } salt c amt := by
    rw [GeneralBucket.get_usable_slots, GeneralBucket.get_usable_slots]
    rw [gcs_fresh_ok b salt c hne hc hpos hlen]
    rw [gcs_memo
      { b with candidate_slots := b.candidate_slots ++
        [(c, assignGo salt b.scid c b.htlc_slots.length (ASSIGNED_SLOTS * 2)
          0 [])] } salt c
      (assignGo salt b.scid c b.htlc_slots.length (ASSIGNED_SLOTS * 2) 0 [])
      hne (alookup_append_single_eq _ b.candidate_slots hc)]
    rfl
  rw [GeneralBucket.add_htlc, GeneralBucket.add_htlc, h1]

theorem remove_htlc_notfound (b : GeneralBucket) (c amt : Nat)
    (hc : alookup c b.candidate_slots = none) :
    b.remove_htlc c amt = .error (.ErrChannelNotFound c) := by
  rw [GeneralBucket.remove_htlc]
  simp only [hc]

/-- Under the invariant, `add_htlc` either fails with `ErrUnrecoverable`
(self-assignment or slot-assignment exhaustion) or succeeds, and success
preserves the invariant. In particular the `assert!` calls of the source
never fire. -/
theorem add_htlc_total (b : GeneralBucket) (wf : BucketWF b)
    (salt : List Nat) (c amt : Nat) :
    b.add_htlc salt c amt = .error .ErrUnrecoverable ∨
      ∃ flag b', b.add_htlc salt c amt = .ok (flag, b') ∧ BucketWF b' := by
  have hmemo : ∀ (b₀ : GeneralBucket), BucketWF b₀ → ∀ m,
      alookup c b₀.candidate_slots = some m → c ≠ b₀.scid →
      ∃ flag b', b₀.add_htlc salt c amt = .ok (flag, b') ∧ BucketWF b' := by
    intro b₀ wf₀ m hm hne
    by_cases hroom : ((m.map Prod.fst).filter
        (fun i => !(b₀.htlc_slots.getD i false))).length <
          b₀.required_slot_count amt
    · exact ⟨false, b₀, add_htlc_memo_none b₀ salt c amt m hne hm hroom, wf₀⟩
    · obtain ⟨b', heq, hwf', _⟩ :=
        add_htlc_memo_some b₀ wf₀ salt c amt m hm (Nat.not_lt.mp hroom)
      exact ⟨true, b', heq, hwf'⟩
  by_cases hself : c = b.scid
  · subst hself
    exact Or.inl (add_htlc_self b salt amt)
  · cases hm : alookup c b.candidate_slots with
    | some m => exact Or.inr (hmemo b wf m hm hself)
    | none =>
      by_cases hfail : (assignGo salt b.scid c b.htlc_slots.length
          (ASSIGNED_SLOTS * 2) 0 []).length < ASSIGNED_SLOTS
      · exact Or.inl (add_htlc_fresh_fail b salt c amt hself hm wf.pos hfail)
      · rw [add_htlc_fresh_eq b salt c amt hself hm wf.pos hfail]
        obtain ⟨hnd, hfalse, hlt, _⟩ := assignGo_spec salt b.scid c
          b.htlc_slots.length wf.pos (ASSIGNED_SLOTS * 2) 0 []
          (by simp) (by simp) (by simp) (by simp [ASSIGNED_SLOTS])
        have wfIns := wf_insert_fresh b wf c hself hm _ hnd hfalse hlt
        exact Or.inr (hmemo _ wfIns _ (alookup_append_single_eq _ _ hm) hself)

/-- Under the invariant, `remove_htlc` either fails with `ErrChannelNotFound`
or `ErrBucketTooEmpty`, or succeeds preserving the invariant. In particular
the `assert!` calls of the source never fire. -/
theorem remove_htlc_total (b : GeneralBucket) (wf : BucketWF b) (c amt : Nat) :
    b.remove_htlc c amt = .error (.ErrChannelNotFound c) ∨
      b.remove_htlc c amt = .error (.ErrBucketTooEmpty amt) ∨
      ∃ b', b.remove_htlc c amt = .ok b' ∧ BucketWF b' := by
  cases hm : alookup c b.candidate_slots with
  | none => exact Or.inl (remove_htlc_notfound b c amt hm)
  | some m =>
    by_cases hlt : ((m.filter (fun p => p.2)).map Prod.fst).length <
        b.required_slot_count amt
    · exact Or.inr (Or.inl (remove_htlc_empty b c amt m hm hlt))
    · obtain ⟨b', heq, hwf', _⟩ :=
        remove_htlc_ok b wf c amt m hm (Nat.not_lt.mp hlt)
      exact Or.inr (Or.inr ⟨b', heq, hwf'⟩)

/-- Every reachable bucket state satisfies the invariant. -/
theorem reachable_wf (b : GeneralBucket) (h : Reachable b) : BucketWF b := by
  induction h with
  | base scid params b hnew => exact new_wf scid params b hnew
  | add b b' salt c amt flag _ heq ih =>
    rcases add_htlc_total b ih salt c amt with herr | ⟨f, b'', heq', hwf⟩
    · rw [heq] at herr
      exact Except.noConfusion herr
    · have h2 := heq.symm.trans heq'
      injection h2 with h2
      injection h2 with _ h2
      rw [h2]
      exact hwf
  | remove b b' c amt _ heq ih =>
    rcases remove_htlc_total b ih c amt with herr | herr | ⟨b'', heq', hwf⟩
    · rw [heq] at herr
      exact Except.noConfusion herr
    · rw [heq] at herr
      exact Except.noConfusion herr
    · have h2 := heq.symm.trans heq'
      injection h2 with h2
      rw [h2]
      exact hwf

/-! ## Claim theorems -/

theorem resources_available_iff (b : BucketResources) (amt : Nat) :
    b.resources_available amt = true ↔
      b.liquidity_used_msat + amt ≤ b.liquidity_available_msat ∧
      b.slots_used + 1 ≤ b.slots_available := by
  unfold BucketResources.resources_available
  split_ifs with h1 h2
  · simp
    omega
  · simp
    omega
  · simp
    omega

/-- C1: for every `AllocationCheck` snapshot, amount and reputation scheme, an
`Endorsed` htlc follows the decision table in order: a tampered upgradable
signal fails with `UpgradableSignalModified`; with sufficient reputation the
htlc goes to the `Protected` bucket (surfaced as `Forward Endorsed`); otherwise
with congestion resources available it goes to the `Congestion` bucket
(surfaced as `Forward Unendorsed`); otherwise scheme `Incoming` uses the
general bucket when it has room, failing with `NoResources` when full, while
schemes `Outgoing` and `Bidirectional` fail with `NoReputation`. -/
theorem claim_C1 (c : AllocationCheck) (amt : Nat) (upg : Bool)
    (scheme : Reputation) :
    (c.inner_forwarding_outcome amt .Endorsed upg scheme =
      if upg = false then .error .UpgradableSignalModified
      else if scheme.sufficient_reputation c = true then .ok .Protected
      else if c.congestion_resources_available amt = true then .ok .Congestion
      else
        match scheme with
        | .Incoming =>
          if c.resource_check.general_bucket.resources_available amt = true then
            .ok .General
          else .error .NoResources
        | .Outgoing => .error .NoReputation
        | .Bidirectional => .error .NoReputation) ∧
    (c.forwarding_outcome amt .Endorsed upg scheme =
      if upg = false then .Fail .UpgradableSignalModified
      else if scheme.sufficient_reputation c = true then .Forward .Endorsed
      else if c.congestion_resources_available amt = true then
        .Forward .Unendorsed
      else
        match scheme with
        | .Incoming =>
          if c.resource_check.general_bucket.resources_available amt = true then
            .Forward .Unendorsed
          else .Fail .NoResources
        | .Outgoing => .Fail .NoReputation
        | .Bidirectional => .Fail .NoReputation) := by
  constructor <;>
  · cases upg <;>
      by_cases hs : scheme.sufficient_reputation c = true <;>
      by_cases hcon : c.congestion_resources_available amt = true <;>
      by_cases hg : c.resource_check.general_bucket.resources_available amt
        = true <;>
      cases scheme <;>
      simp [AllocationCheck.inner_forwarding_outcome,
        AllocationCheck.forwarding_outcome, hs, hcon, hg]

/-- C2: for every `AllocationCheck` snapshot, amount and reputation scheme, an
`Unendorsed` htlc is assigned the `Protected` bucket (the opportunistic
upgrade, surfaced as `Forward Endorsed`) exactly when the upgradable signal is
set and reputation is sufficient; otherwise it gets the `General` bucket when
it has room and fails with `NoResources` when full; it is never assigned the
`Congestion` bucket. -/
theorem claim_C2 (c : AllocationCheck) (amt : Nat) (upg : Bool)
    (scheme : Reputation) :
    (c.inner_forwarding_outcome amt .Unendorsed upg scheme =
      if scheme.sufficient_reputation c = true ∧ upg = true then .ok .Protected
      else if c.resource_check.general_bucket.resources_available amt = true
        then .ok .General
      else .error .NoResources) ∧
    (c.forwarding_outcome amt .Unendorsed upg scheme =
      if scheme.sufficient_reputation c = true ∧ upg = true then
        .Forward .Endorsed
      else if c.resource_check.general_bucket.resources_available amt = true
        then .Forward .Unendorsed
      else .Fail .NoResources) ∧
    c.inner_forwarding_outcome amt .Unendorsed upg scheme ≠
      .ok .Congestion := by
  refine ⟨?_, ?_, ?_⟩ <;>
  · cases upg <;>
      by_cases hs : scheme.sufficient_reputation c = true <;>
      by_cases hg : c.resource_check.general_bucket.resources_available amt
        = true <;>
      simp [AllocationCheck.inner_forwarding_outcome,
        AllocationCheck.forwarding_outcome, hs, hg]

/-- C3: `congestion_resources_available amt` holds exactly when the congestion
bucket's slot count and liquidity are both nonzero, the general bucket has no
room for the amount, the channel is congestion-eligible, the congestion
bucket's aggregate slot and liquidity headroom fit the amount, and the amount
is at most `max(liquidity_available / slots_available, 15_000_000)`. -/
theorem claim_C3 (c : AllocationCheck) (amt : Nat) :
    c.congestion_resources_available amt = true ↔
      c.resource_check.congestion_bucket.slots_available ≠ 0 ∧
      c.resource_check.congestion_bucket.liquidity_available_msat ≠ 0 ∧
      ¬(c.resource_check.general_bucket.resources_available amt = true) ∧
      c.congestion_eligible = true ∧
      c.resource_check.congestion_bucket.slots_used + 1 ≤
        c.resource_check.congestion_bucket.slots_available ∧
      c.resource_check.congestion_bucket.liquidity_used_msat + amt ≤
        c.resource_check.congestion_bucket.liquidity_available_msat ∧
      amt ≤ max (c.resource_check.congestion_bucket.liquidity_available_msat /
        c.resource_check.congestion_bucket.slots_available)
        MINIMUM_CONGESTION_SLOT_LIQUDITY := by
  unfold AllocationCheck.congestion_resources_available
  split_ifs with h1 h2
  · refine ⟨fun h => h.elim, ?_⟩
    rintro ⟨ha, hb, -⟩
    rcases (Bool.or_eq_true _ _).mp h1 with h | h
    · exact ha (of_decide_eq_true h)
    · exact hb (of_decide_eq_true h)
  · refine ⟨fun h => h.elim, ?_⟩
    rintro ⟨-, -, hng, helig, hslots, hliq, -⟩
    rcases (Bool.or_eq_true _ _).mp h2 with h | h
    · rcases (Bool.or_eq_true _ _).mp h with h2a | h2a
      · exact hng h2a
      · rw [helig] at h2a
        simp at h2a
    · have hcr : c.resource_check.congestion_bucket.resources_available amt
          = true :=
        (resources_available_iff _ amt).mpr ⟨hliq, hslots⟩
      rw [hcr] at h
      exact Bool.noConfusion h
  · simp only [Bool.or_eq_true, decide_eq_true_eq, not_or, Bool.not_eq_true,
      Bool.not_eq_false'] at h1 h2
    obtain ⟨hs0, hl0⟩ := h1
    obtain ⟨⟨hng, helig⟩, hcres⟩ := h2
    obtain ⟨hliq2, hslots2⟩ := (resources_available_iff _ _).mp hcres
    constructor
    · intro hle
      exact ⟨hs0, hl0, by simp [hng], helig, hslots2, hliq2,
        of_decide_eq_true hle⟩
    · rintro ⟨-, -, -, -, -, -, hle⟩
      exact decide_eq_true hle

/-- C4: `ReputationValues::sufficient_reputation` holds exactly when
reputation minus the in-flight risk minus the htlc risk is strictly greater
than the revenue threshold, with each subtraction saturating at the `i64`
bounds and each `u64` risk clamped to `i64::MAX` before subtracting. -/
theorem claim_C4 (v : ReputationValues) :
    v.sufficient_reputation = true ↔
      max i64Min (min i64Max
        (max i64Min (min i64Max
          (v.reputation - min (Int.ofNat v.in_flight_total_risk) i64Max)) -
        min (Int.ofNat v.htlc_risk) i64Max)) > v.revenue_threshold := by
  unfold ReputationValues.sufficient_reputation i64SaturatingSub u64AsI64Sat
  exact decide_eq_true_iff

/-- C5: from a freshly created bucket, after every sequence of successful
`add_htlc`/`remove_htlc` calls, a global slot bit is set exactly when some
candidate's slot map holds that slot, and no call can fail one of the
reserve/free assertions. -/
theorem claim_C5 (b : GeneralBucket) (h : Reachable b) :
    (∀ i, b.htlc_slots.getD i false = true ↔
      ∃ c m, alookup c b.candidate_slots = some m ∧ alookup i m = some true) ∧
    (∀ (salt : List Nat) (c amt : Nat),
      b.add_htlc salt c amt ≠ .error .assertViolated ∧
      b.remove_htlc c amt ≠ .error .assertViolated) := by
  have wf := reachable_wf b h
  refine ⟨wf.consistent, ?_⟩
  intro salt c amt
  constructor
  · intro heq
    rcases add_htlc_total b wf salt c amt with herr | ⟨f, b', hok, _⟩
    · rw [heq] at herr
      injection herr with herr
      exact ReputationError.noConfusion herr
    · rw [heq] at hok
      exact Except.noConfusion hok
  · intro heq
    rcases remove_htlc_total b wf c amt with herr | herr | ⟨b', hok, _⟩
    · rw [heq] at herr
      injection herr with herr
      exact ReputationError.noConfusion herr
    · rw [heq] at herr
      injection herr with herr
      exact ReputationError.noConfusion herr
    · rw [heq] at hok
      exact Except.noConfusion hok

/-- Witness for C5 at the concrete fresh bucket of scenario S1. -/
theorem claim_C5_witness :
    (bucketS1.htlc_slots.getD 0 false = true ↔
      ∃ c m, alookup c bucketS1.candidate_slots = some m ∧
        alookup 0 m = some true) ∧
    bucketS1.remove_htlc 456 1 ≠ .error .assertViolated :=
  ⟨(claim_C5 bucketS1
      (Reachable.base 123 ⟨100, 1000000⟩ bucketS1 (by decide))).1 0,
   ((claim_C5 bucketS1
      (Reachable.base 123 ⟨100, 1000000⟩ bucketS1 (by decide))).2
        salt0 456 1).2⟩

/-- C9: `remove_channel` deletes exactly the candidate's slot map: the
candidate no longer resolves, every other candidate's map is unchanged, and
the global slot vector, slot size, parameters and owning scid are untouched,
so slots the candidate held remain occupied. -/
theorem claim_C9 (b : GeneralBucket) (c : Nat)
    (nd : (b.candidate_slots.map Prod.fst).Nodup) :
    (b.remove_channel c).1 = (alookup c b.candidate_slots).isSome ∧
    alookup c (b.remove_channel c).2.candidate_slots = none ∧
    (∀ x, x ≠ c → alookup x (b.remove_channel c).2.candidate_slots =
      alookup x b.candidate_slots) ∧
    (b.remove_channel c).2.htlc_slots = b.htlc_slots ∧
    (b.remove_channel c).2.slot_size_msat = b.slot_size_msat ∧
    (b.remove_channel c).2.params = b.params ∧
    (b.remove_channel c).2.scid = b.scid := by
  refine ⟨rfl, ?_, ?_, rfl, rfl, rfl, rfl⟩
  · exact alookup_aerase_self nd
  · intro x hx
    exact alookup_aerase_ne b.candidate_slots hx

/-- Witness for C9: removing candidate 5 drops its map, keeps candidate 7's
map and leaves the occupied slot vector unchanged. -/
theorem claim_C9_witness :
    alookup 5 (bucketC9.remove_channel 5).2.candidate_slots = none ∧
    alookup 7 (bucketC9.remove_channel 5).2.candidate_slots =
      alookup 7 bucketC9.candidate_slots ∧
    (bucketC9.remove_channel 5).2.htlc_slots = bucketC9.htlc_slots ∧
    (bucketC9.remove_channel 5).1 = true := by
  have h := claim_C9 bucketC9 5 (by decide)
  exact ⟨h.2.1, h.2.2.1 7 (by decide), h.2.2.2.1, h.1.trans (by decide)⟩

/-- C10: `GeneralBucket::new` divides by `slot_count` with no zero check, so
`slot_count = 0` panics (division by zero) instead of returning an error; for
positive `slot_count` it returns `ErrUnrecoverable` exactly when
`liquidity_msat / slot_count = 0` (equivalently `liquidity_msat <
slot_count`), and otherwise a bucket with the computed slot size, a fully
free slot vector of length `slot_count`, and no candidate maps. -/
theorem claim_C10 (scid : Nat) (params : BucketParameters) :
    (params.slot_count = 0 →
      GeneralBucket.new scid params = .error .divByZero) ∧
    (0 < params.slot_count →
      (params.liquidity_msat / params.slot_count = 0 ↔
        params.liquidity_msat < params.slot_count) ∧
      (params.liquidity_msat < params.slot_count →
        GeneralBucket.new scid params = .error .ErrUnrecoverable) ∧
      (params.slot_count ≤ params.liquidity_msat →
        GeneralBucket.new scid params = .ok
          { params := params
            scid := scid
            htlc_slots := List.replicate params.slot_count false
            slot_size_msat := params.liquidity_msat / params.slot_count
            candidate_slots := [] })) := by
  constructor
  · intro h0
    rw [GeneralBucket.new, if_pos h0]
  · intro hpos
    have hdiv : params.liquidity_msat / params.slot_count = 0 ↔
        params.liquidity_msat < params.slot_count :=
      Nat.div_eq_zero_iff hpos
    refine ⟨hdiv, ?_, ?_⟩
    · intro hlt
      rw [GeneralBucket.new, if_neg (Nat.pos_iff_ne_zero.mp hpos),
        if_pos (hdiv.mpr hlt)]
    · intro hge
      have hne : ¬(params.liquidity_msat / params.slot_count = 0) := by
        rw [hdiv]
        omega
      rw [GeneralBucket.new, if_neg (Nat.pos_iff_ne_zero.mp hpos), if_neg hne]

/-- Witness for C10: division-by-zero panic at `slot_count = 0`, the S1 bucket
at `(100, 1_000_000)`, and slot-size exhaustion at `(200, 100)`. -/
theorem claim_C10_witness :
    GeneralBucket.new 77 ⟨0, 5⟩ = .error .divByZero ∧
    GeneralBucket.new 123 ⟨100, 1000000⟩ = .ok bucketS1 ∧
    GeneralBucket.new 123 ⟨200, 100⟩ = .error .ErrUnrecoverable := by
  refine ⟨(claim_C10 77 ⟨0, 5⟩).1 rfl, ?_, ?_⟩
  · exact ((claim_C10 123 ⟨100, 1000000⟩).2 (by decide)).2.2 (by decide)
  · exact ((claim_C10 123 ⟨200, 100⟩).2 (by decide)).2.1 (by decide)

set_option maxRecDepth 100000 in
/-- C7: with `required = max(1, ceil(amount / slot_size))`, `add_htlc` returns
`Ok false` exactly when fewer than `required` of the candidate's slots are
globally free and otherwise reserves exactly `required` slots returning
`Ok true`; `remove_htlc` fails with `BucketTooEmpty` exactly when fewer than
`required` of the candidate's slots are occupied and otherwise frees exactly
`required`. In particular scenario S1 holds on a 100-slot, 1_000_000 msat
bucket: five 1-msat adds succeed, a sixth 100_000-msat add returns `false`,
five 1-msat removes succeed, and a sixth remove fails with `BucketTooEmpty`. -/
theorem claim_C7 (b : GeneralBucket) (salt : List Nat) (c amt : Nat)
    (m : List (Nat × Bool)) (wf : BucketWF b)
    (hm : alookup c b.candidate_slots = some m) :
    (b.required_slot_count amt =
      max 1 ((amt + b.slot_size_msat - 1) / b.slot_size_msat)) ∧
    (((m.map Prod.fst).filter (fun i => !(b.htlc_slots.getD i false))).length <
        b.required_slot_count amt →
      b.add_htlc salt c amt = .ok (false, b)) ∧
    (b.required_slot_count amt ≤
        ((m.map Prod.fst).filter
          (fun i => !(b.htlc_slots.getD i false))).length →
      ∃ b', b.add_htlc salt c amt = .ok (true, b') ∧
        b'.htlc_slots.count true =
          b.htlc_slots.count true + b.required_slot_count amt) ∧
    (((m.filter (fun p => p.2)).map Prod.fst).length <
        b.required_slot_count amt →
      b.remove_htlc c amt = .error (.ErrBucketTooEmpty amt)) ∧
    (b.required_slot_count amt ≤
        ((m.filter (fun p => p.2)).map Prod.fst).length →
      ∃ b', b.remove_htlc c amt = .ok b' ∧
        b'.htlc_slots.count true + b.required_slot_count amt =
          b.htlc_slots.count true) ∧
    (GeneralBucket.new 123 ⟨100, 1000000⟩ = .ok bucketS1) ∧
    ((addSeq salt0 456 [1, 1, 1, 1, 1, 100000] bucketS1).map Prod.fst =
      .ok [true, true, true, true, true, false]) ∧
    (exceptIsOk ((addSeq salt0 456 [1, 1, 1, 1, 1] bucketS1).bind
        (fun p => removeSeq 456 [1, 1, 1, 1, 1] p.2)) = true) ∧
    (((addSeq salt0 456 [1, 1, 1, 1, 1] bucketS1).bind
        (fun p => removeSeq 456 [1, 1, 1, 1, 1] p.2)).bind
      (fun b10 => b10.remove_htlc 456 1) = .error (.ErrBucketTooEmpty 1)) := by
  have hne : c ≠ b.scid := by
    intro hcc
    rw [hcc, wf.not_self] at hm
    exact Option.noConfusion hm
  refine ⟨rfl, ?_, ?_, ?_, ?_, by decide, by decide, by decide, by decide⟩
  · intro hroom
    exact add_htlc_memo_none b salt c amt m hne hm hroom
  · intro hroom
    obtain ⟨b', heq, _, _, hcount, _⟩ :=
      add_htlc_memo_some b wf salt c amt m hm hroom
    exact ⟨b', heq, hcount⟩
  · intro hlt
    exact remove_htlc_empty b c amt m hm hlt
  · intro hspace
    obtain ⟨b', heq, _, _, hcount, _⟩ :=
      remove_htlc_ok b wf c amt m hm hspace
    exact ⟨b', heq, hcount⟩

set_option maxRecDepth 100000 in
/-- Witness for C7: on the concrete one-htlc bucket, removing a 20_000-msat
htlc (2 slots required, 1 occupied) fails with `BucketTooEmpty`. -/
theorem claim_C7_witness :
    bucketC7.remove_htlc 456 20000 = .error (.ErrBucketTooEmpty 20000) := by
  have h := claim_C7 bucketC7 salt0 456 20000
    [(8, true), (62, false), (78, false), (99, false), (15, false)]
    (reachable_wf bucketC7 (Reachable.add bucketS1 bucketC7 salt0 456 1 true
      (Reachable.base 123 ⟨100, 1000000⟩ bucketS1 (by decide)) (by decide)))
    (by decide)
  exact h.2.2.2.1 (by decide)

/-- C6: `get_candidate_slots` rejects self-assignment with `Unrecoverable`;
for a memoised candidate it returns the stored slot set unchanged; for a fresh
candidate it derives indices as `SHA256d(salt ‖ own_scid_be ‖ candidate_be ‖
attempt_u8)`, first 8 bytes big-endian modulo the slot vector length, over at
most `ASSIGNED_SLOTS · 2 = 10` attempts, fails with `Unrecoverable` when fewer
than 5 distinct indices arise, and otherwise memoises exactly those (at most
5, distinct, in-range) indices, which every subsequent call returns
unchanged. -/
theorem claim_C6 (b : GeneralBucket) (salt : List Nat) (c : Nat) :
    (c = b.scid → b.get_candidate_slots salt c = .error .ErrUnrecoverable) ∧
    (∀ m, c ≠ b.scid → alookup c b.candidate_slots = some m →
      b.get_candidate_slots salt c = .ok (m.map Prod.fst, b)) ∧
    (∀ a len, deriveIdx salt b.scid c a len =
      beNat ((sha256d (salt ++ beBytes 8 b.scid ++ beBytes 8 c ++
        [a % 256])).take 8) % len) ∧
    (c ≠ b.scid → alookup c b.candidate_slots = none →
      0 < b.htlc_slots.length →
      ((assignGo salt b.scid c b.htlc_slots.length (ASSIGNED_SLOTS * 2) 0
          []).length < ASSIGNED_SLOTS →
        b.get_candidate_slots salt c = .error .ErrUnrecoverable) ∧
      (∀ p ∈ assignGo salt b.scid c b.htlc_slots.length (ASSIGNED_SLOTS * 2)
          0 [], ∃ a, a < ASSIGNED_SLOTS * 2 ∧
        p.1 = deriveIdx salt b.scid c a b.htlc_slots.length) ∧
      ((assignGo salt b.scid c b.htlc_slots.length (ASSIGNED_SLOTS * 2) 0
        []).map Prod.fst).Nodup ∧
      (∀ p ∈ assignGo salt b.scid c b.htlc_slots.length (ASSIGNED_SLOTS * 2)
        0 [], p.1 < b.htlc_slots.length) ∧
      (assignGo salt b.scid c b.htlc_slots.length (ASSIGNED_SLOTS * 2) 0
        []).length ≤ ASSIGNED_SLOTS ∧
      (¬((assignGo salt b.scid c b.htlc_slots.length (ASSIGNED_SLOTS * 2) 0
          []).length < ASSIGNED_SLOTS) →
        b.get_candidate_slots salt c =
          .ok ((assignGo salt b.scid c b.htlc_slots.length
            (ASSIGNED_SLOTS * 2) 0 []).map Prod.fst,
            { b with candidate_slots := b.candidate_slots ++
              [(c, assignGo salt b.scid c b.htlc_slots.length
                (ASSIGNED_SLOTS * 2) 0 [])] }) ∧
        (∀ salt₂, GeneralBucket.get_candidate_slots
            { b with candidate_slots := b.candidate_slots ++
              [(c, assignGo salt b.scid c b.htlc_slots.length
                (ASSIGNED_SLOTS * 2) 0 [])] } salt₂ c =
          .ok ((assignGo salt b.scid c b.htlc_slots.length
            (ASSIGNED_SLOTS * 2) 0 []).map Prod.fst,
            { b with candidate_slots := b.candidate_slots ++
              [(c, assignGo salt b.scid c b.htlc_slots.length
                (ASSIGNED_SLOTS * 2) 0 [])] })))) := by
  refine ⟨?_, ?_, ?_, ?_⟩
  · intro hself
    rw [hself]
    exact gcs_self b salt
  · intro m hne hm
    exact gcs_memo b salt c m hne hm
  · intro a len
    rfl
  · intro hne hc hpos
    obtain ⟨hnd, hfalse, hlt, hlen5⟩ := assignGo_spec salt b.scid c
      b.htlc_slots.length hpos (ASSIGNED_SLOTS * 2) 0 []
      (by simp) (by simp) (by simp) (by simp [ASSIGNED_SLOTS])
    refine ⟨?_, ?_, hnd, fun p hp => hlt p hp, hlen5, ?_⟩
    · intro hfail
      exact gcs_fresh_fail b salt c hne hc hpos hfail
    · intro p hp
      rcases assignGo_keys salt b.scid c b.htlc_slots.length
          (ASSIGNED_SLOTS * 2) 0 [] p hp with h | ⟨a, _, ha2, ha3⟩
      · simp at h
      · exact ⟨a, by omega, ha3⟩
    · intro hok
      refine ⟨gcs_fresh_ok b salt c hne hc hpos hok, ?_⟩
      intro salt₂
      exact gcs_memo _ salt₂ c _ hne (alookup_append_single_eq _ _ hc)

set_option maxRecDepth 100000 in
/-- Witness for C6: self-assignment fails on the S1 bucket; with the all-zero
salt candidate 456 is assigned slots 8, 62, 78, 99, 15, and a second call
with a different salt returns them unchanged. -/
theorem claim_C6_witness :
    bucketS1.get_candidate_slots salt0 123 = .error .ErrUnrecoverable ∧
    bucketS1.get_candidate_slots salt0 456 =
      .ok ([8, 62, 78, 99, 15], bucketC6) ∧
    bucketC6.get_candidate_slots (List.replicate 32 7) 456 =
      .ok ([8, 62, 78, 99, 15], bucketC6) := by
  have h := claim_C6 bucketS1 salt0 456
  have hfresh := h.2.2.2 (by decide) (by decide) (by decide)
  have hok := hfresh.2.2.2.2.2 (by decide)
  refine ⟨(claim_C6 bucketS1 salt0 123).1 rfl, ?_, ?_⟩
  · exact hok.1.trans (by decide)
  · exact (hok.2 (List.replicate 32 7)).trans (by decide)

/-- C8 (amended): `general_jam_channel` zeroes the general bucket's
parameters and changes nothing else (slot vector, slot size, candidate maps
and scid are untouched); any `BucketResources` snapshot whose
`slots_available` comes from the zeroed `slot_count` reports no room for
every amount, which is how admissions assessed from the parameters fail.
`GeneralBucket::may_add_htlc` and `add_htlc` themselves do not consult the
parameters. -/
theorem claim_C8_amended (ic : IncomingChannel) :
    (ic.general_jam_channel.general_bucket.params =
      { slot_count := 0, liquidity_msat := 0 }) ∧
    (ic.general_jam_channel.general_bucket.htlc_slots =
      ic.general_bucket.htlc_slots) ∧
    (ic.general_jam_channel.general_bucket.slot_size_msat =
      ic.general_bucket.slot_size_msat) ∧
    (ic.general_jam_channel.general_bucket.candidate_slots =
      ic.general_bucket.candidate_slots) ∧
    (ic.general_jam_channel.general_bucket.scid = ic.general_bucket.scid) ∧
    (ic.general_jam_channel.congestion_bucket = ic.congestion_bucket) ∧
    (ic.general_jam_channel.protected_bucket = ic.protected_bucket) ∧
    (∀ (r : BucketResources), r.slots_available = 0 →
      ∀ amt, r.resources_available amt = false) := by
  refine ⟨rfl, rfl, rfl, rfl, rfl, rfl, rfl, ?_⟩
  intro r h0 amt
  unfold BucketResources.resources_available
  split_ifs with h1 h2
  · rfl
  · rfl
  · rw [h0] at h2
    omega

/-- Witness for C8 (amended), at a concrete incoming channel and snapshot. -/
theorem claim_C8_amended_witness :
    (IncomingChannel.general_jam_channel
      { general_bucket := bucketS1
        congestion_bucket := { slot_count := 20, liquidity_msat := 2000000 }
        protected_bucket :=
          { slot_count := 30, liquidity_msat := 3000000 } }).general_bucket.params =
      { slot_count := 0, liquidity_msat := 0 } ∧
    BucketResources.resources_available
      { slots_used := 0, slots_available := 0, liquidity_used_msat := 0,
        liquidity_available_msat := 0 } 1 = false := by
  have h := claim_C8_amended
    { general_bucket := bucketS1
      congestion_bucket := { slot_count := 20, liquidity_msat := 2000000 }
      protected_bucket := { slot_count := 30, liquidity_msat := 3000000 } }
  exact ⟨h.1, h.2.2.2.2.2.2.2 _ (by decide) 1⟩

set_option maxRecDepth 100000 in
/-- Counterexample to C8 as stated: after `general_jam_channel` on a freshly
created incoming channel, `may_add_htlc` still reports room and `add_htlc`
still admits a 1-msat htlc for candidate 456, because neither consults the
zeroed parameters. -/
theorem claim_C8_counterexample :
    IncomingChannel.new 123 ⟨100, 1000000⟩ ⟨20, 2000000⟩ ⟨30, 3000000⟩ =
      .ok icC8 ∧
    icC8.general_jam_channel.general_bucket.params =
      { slot_count := 0, liquidity_msat := 0 } ∧
    (icC8.general_jam_channel.general_bucket.may_add_htlc salt0 456 1).map
      Prod.fst = .ok true ∧
    (icC8.general_jam_channel.general_bucket.add_htlc salt0 456 1).map
      Prod.fst = .ok true := by
  refine ⟨by decide, rfl, by decide, by decide⟩
